import Mathlib

/-!
# oops: Hessian operator, ensemble linearization, saddle-point minimizer

A shallow embedding of

* `HessianMatrix::multiply`        (src/oops/assimilation/HessianMatrix.h)
* `Ensemble::linearize` (two overloads) (src/oops/base/Ensemble.h)
* `SaddlePointMinimizer::doMinimize` (src/oops/assimilation/SaddlePointMinimizer.h)

Conventions.  `double` values are elements of a field `K` (exact arithmetic);
control increments, model states and dual vectors are elements of modules over
`K`.  Out-parameters of C++ calls are threaded explicitly.  Collaborators whose
code is not part of the sources are parameters (records of functions).
-/

namespace oops

/-! ## HessianMatrix -/

/-- Collaborator calls issued by `HessianMatrix::multiply`, in program order. -/
inductive Call where
  | jb_initializeTL
  | setupTL (jj : Nat)
  | runTLM
  | jb_finalizeTL
  | jb_multiplyBinv
  | jb_initializeAD
  | zeroAD
  | releaseOutputFromTL (pos : Nat)
  | multiplyCoInv (jj : Nat)
  | setupAD (jj : Nat)
  | runADJ
  | jb_finalizeAD
  deriving DecidableEq, Repr

/-- The interface of `CostFunction<MODEL, OBS>` as `HessianMatrix::multiply` uses it
(`j_`, `j_.jb()`, `j_.jterm(jj)`); `X` is the type of control increments, `Y` of the
per-term dual vectors (`GeneralizedDepartures`), `P` of the processors enrolled in a
`PostProcessorTLAD`, `E` of the errors a model integration can raise.
Out-parameters are passed in and returned. -/
structure CostFunction (X Y P E : Type) where
  /-- Source `j_.nterms()` -/
  nterms : Nat
  /-- Source `j_.jb().initializeTL()`: a processor, or the null pointer -/
  jb_initializeTL : Option P
  /-- Source `j_.jterm(jj).setupTL(dx)` -/
  jterm_setupTL : Nat → X → P
  /-- Source `j_.runTLM(mdx, costtl)`: the increment and the processors after the integration -/
  runTLM : X → List P → Except E (X × List P)
  /-- Source `j_.jb().finalizeTL(jqtl, dx, dw)`: the new `dw` -/
  jb_finalizeTL : Option P → X → X → X
  /-- Source `j_.jb().multiplyBinv(dw, tmp)`: the new `tmp` -/
  jb_multiplyBinv : X → X → X
  /-- Source `j_.jb().initializeAD(dz, tmp)`: the new `dz` and the returned processor -/
  jb_initializeAD : X → X → X × Option P
  /-- Source `j_.zeroAD(dw)`: the new `dw` -/
  zeroAD : X → X
  /-- Source `releaseOutputFromTL()` of one processor -/
  releaseOutputFromTL : P → Y
  /-- Source `j_.jterm(jj).multiplyCoInv(w)` -/
  jterm_multiplyCoInv : Nat → Y → Y
  /-- Source `j_.jterm(jj).setupAD(z, dw)` -/
  jterm_setupAD : Nat → Y → X → P
  /-- Source `j_.runADJ(dw, costad)`: the new `dw` -/
  runADJ : X → List P → Except E X

/-- Modelled from the spec: `PostProcessorTLAD` is not among the sources.  Its
`enrollProcessor` appends a processor to the ordered list of enrolled processors and
does not enrol a null pointer, as the offset `iq` of `multiply` presumes (optional
background-linked processor first, then the terms in order). -/
def enrollProcessor {P : Type} (pp : List P) : Option P → List P
  | none => pp
  | some p => pp ++ [p]

/-- Modelled from the spec: `DualVector` is not among the sources.  The `dot_product` of
two `DualVector`s is the sum of the inner products of the entries at the same index. -/
def dualDot {Y K : Type} [AddCommMonoid K] (dotY : Y → Y → K) (ww zz : List Y) : K :=
  (List.zipWith dotY ww zz).sum

/-- The members of `HessianMatrix` besides the cost function. -/
structure HessianMatrix where
  test_ : Bool
  iter_ : Int
  deriving DecidableEq, Repr

/-- The constructor `HessianMatrix(j, test)`. -/
def HessianMatrix.new (test : Bool) : HessianMatrix :=
  { test_ := test, iter_ := 0 }

/-- The online adjoint test line: iteration label, forward and backward value. -/
structure AdjTest (K : Type) where
  iteration : Int
  adj_tst_fwd : K
  adj_tst_bwd : K

/-- Why a call of `multiply` did not return. -/
inductive Failure (E : Type) where
  /-- an error raised by `runTLM` -/
  | tlm (e : E)
  /-- an error raised by `runADJ` -/
  | adj (e : E)
  /-- an index outside a container (`releaseOutputFromTL(iq+jj)`, `getv(jj)`) -/
  | outOfRange (pos : Nat)

/-- The locals of the `Jo + Jc` loop. -/
structure TermLoop (Y P : Type) where
  ww : List Y
  zz : List Y
  costad : List P
  calls : List Call

/-- Body of the loop `for (jj = 0; jj < j_.nterms(); ++jj)` (lines 96-100). -/
def termStep {X Y P E : Type} (j : CostFunction X Y P E) (costtl : List P) (iq : Nat)
    (dw : X) (s : TermLoop Y P) (jj : Nat) : Except Nat (TermLoop Y P) :=
  match costtl[iq + jj]? with
  | none => .error (iq + jj)
  | some p =>
    let ww := s.ww ++ [j.releaseOutputFromTL p]
    match ww[jj]? with
    | none => .error jj
    | some w =>
      let zz := s.zz ++ [j.jterm_multiplyCoInv jj w]
      match zz[jj]? with
      | none => .error jj
      | some z =>
        .ok { ww := ww, zz := zz,
              costad := enrollProcessor s.costad (some (j.jterm_setupAD jj z dw)),
              calls := s.calls ++
                [Call.releaseOutputFromTL (iq + jj), Call.multiplyCoInv jj, Call.setupAD jj] }

/-- The loop of lines 96-100. -/
def termLoop {X Y P E : Type} (j : CostFunction X Y P E) (costtl : List P) (iq : Nat)
    (dw : X) (s : TermLoop Y P) : Except Nat (TermLoop Y P) :=
  (List.range j.nterms).foldl (fun acc jj => acc.bind (fun t => termStep j costtl iq dw t jj))
    (.ok s)

/-- What a returning call of `multiply` leaves behind. -/
structure Multiplied (X Y K : Type) where
  /-- the out-parameter `dz` -/
  dz : X
  /-- the local `dw` after the adjoint integration -/
  dw : X
  ww : List Y
  zz : List Y
  /-- the operator after the call -/
  self : HessianMatrix
  /-- the line written when `test_` is set -/
  report : Option (AdjTest K)

/-- Outcome of a call: the collaborator calls issued, and the result or the failure. -/
structure Outcome (X Y K E : Type) where
  calls : List Call
  result : Except (Failure E) (Multiplied X Y K)

/-- Source `HessianMatrix::multiply(dx, dz)` (lines 57-117).  `dz` is the value the
out-parameter holds on entry; `CtrlInc_(j_.jb())` is the zero increment. -/
def HessianMatrix.multiply {X Y P E K : Type} [AddCommMonoid X] [AddCommMonoid K]
    (dotX : X → X → K) (dotY : Y → Y → K)
    (j : CostFunction X Y P E) (self : HessianMatrix) (dx : X) (_dz : X) :
    Outcome X Y K E :=
  -- Increment counter
  let iter := self.iter_ + 1
  -- Setup TL terms of cost function
  let jqtl := j.jb_initializeTL
  let costtl := enrollProcessor [] jqtl
  let iq : Nat := if jqtl.isSome then 1 else 0
  let costtl := (List.range j.nterms).foldl
    (fun c jj => enrollProcessor c (some (j.jterm_setupTL jj dx))) costtl
  let calls := [Call.jb_initializeTL] ++ (List.range j.nterms).map Call.setupTL ++ [Call.runTLM]
  -- Run TLM
  match j.runTLM dx costtl with
  | .error e => { calls := calls, result := .error (.tlm e) }
  | .ok (_mdx, costtl) =>
    let jqtl := if iq = 1 then costtl.head? else none
    let dz : X := 0
    let dw : X := 0
    let tmp : X := 0
    -- Jb
    let dw := j.jb_finalizeTL jqtl dx dw
    let tmp := j.jb_multiplyBinv dw tmp
    let (dz, jqad) := j.jb_initializeAD dz tmp
    let costad := enrollProcessor [] jqad
    let dw := j.zeroAD dw
    let calls := calls ++
      [Call.jb_finalizeTL, Call.jb_multiplyBinv, Call.jb_initializeAD, Call.zeroAD]
    -- Jo + Jc
    match termLoop j costtl iq dw { ww := [], zz := [], costad := costad, calls := calls } with
    | .error pos => { calls := calls, result := .error (.outOfRange pos) }
    | .ok t =>
      -- Run ADJ
      let calls := t.calls ++ [Call.runADJ]
      match j.runADJ dw t.costad with
      | .error e => { calls := calls, result := .error (.adj e) }
      | .ok dw =>
        let dz := dz + dw
        let calls := calls ++ [Call.jb_finalizeAD]
        let report : Option (AdjTest K) :=
          if self.test_ then
            some { iteration := iter, adj_tst_fwd := dualDot dotY t.ww t.zz,
                   adj_tst_bwd := dotX dx dw }
          else none
        { calls := calls,
          result := .ok { dz := dz, dw := dw, ww := t.ww, zz := t.zz,
                          self := { self with iter_ := iter }, report := report } }

/-- One observation/constraint term whose collaborators are maps between the
control space and its dual space: tangent-linear operator, adjoint operator and
inverse covariance. -/
structure LinearTerm (X Y : Type) where
  /-- tangent-linear operator of the term over the window -/
  H : X → Y
  /-- adjoint operator of the term -/
  Ht : Y → X
  /-- inverse of the error covariance of the term, `multiplyCoInv` -/
  Rinv : Y → Y

/-- Processors of the linear cost function: the processor of the background term, the
TL observer of term `jj` holding its output, and the adjoint forcing of term `jj`. -/
inductive LinearHook (Y : Type) where
  | jq
  | tl (jj : Nat) (output : Y)
  | ad (jj : Nat) (forcing : Y)

/-- Modelled from the spec: `CostFunction`, its background term and its terms are not
among the sources.  A cost function over the maps `Binv` and `H`, `Ht`, `Rinv` of its
terms.  With `jq` set the background term enrols a processor of its own in both
integrations (it comes first and contributes nothing); `finalizeTL` hands `dx` to
`multiplyBinv`, which applies `Binv`; `initializeAD` stores that background contribution
in `dz`; `zeroAD` zeroes the adjoint accumulator; one tangent-linear integration gives
every enrolled TL processor its `H·dx`; one adjoint integration adds `Hᵗ·z` to the
accumulator for every enrolled forcing `z`. -/
def linearCost {X Y : Type} [AddCommMonoid X] [Zero Y]
    (jq : Bool) (Binv : X → X) (nterms : Nat) (term : Nat → LinearTerm X Y) :
    CostFunction X Y (LinearHook Y) Empty where
  nterms := nterms
  jb_initializeTL := if jq then some .jq else none
  jterm_setupTL := fun jj _ => .tl jj 0
  runTLM := fun mdx pp => .ok (mdx, pp.map (fun p =>
    match p with
    | .jq => .jq
    | .tl jj _ => .tl jj ((term jj).H mdx)
    | .ad jj z => .ad jj z))
  jb_finalizeTL := fun _ dx _ => dx
  jb_multiplyBinv := fun dw _ => Binv dw
  jb_initializeAD := fun _ tmp => (tmp, if jq then some .jq else none)
  zeroAD := fun _ => 0
  releaseOutputFromTL := fun p =>
    match p with
    | .jq => 0
    | .tl _ w => w
    | .ad _ _ => 0
  jterm_multiplyCoInv := fun jj w => (term jj).Rinv w
  jterm_setupAD := fun jj z _ => .ad jj z
  runADJ := fun dw pp => .ok (dw + (pp.map (fun p =>
    match p with
    | .jq => 0
    | .tl _ _ => 0
    | .ad jj z => (term jj).Ht z)).sum)

/-- The value `multiply` leaves in `dz`, when the call returns. -/
def Outcome.dz? {X Y K E : Type} (o : Outcome X Y K E) : Option X :=
  match o.result with
  | .ok r => some r.dz
  | .error _ => none

/-- A term with identity tangent-linear and adjoint operators and the diagonal error
covariance with entries `R i`. -/
def diagonalTerm {ι K : Type} [Field K] (R : ι → K) : LinearTerm (ι → K) (ι → K) where
  H := fun x => x
  Ht := fun y => y
  Rinv := fun y i => (1 / R i) * y i

/-- The inverse of the diagonal background covariance with entries `B i`. -/
def diagonalBinv {ι K : Type} [Field K] (B : ι → K) : (ι → K) → (ι → K) :=
  fun x i => (1 / B i) * x i

/-- A symmetric form that is additive in its second (hence in each) argument: what the
statements below use of `dot_product`. -/
structure IsDotProduct {V K : Type} [AddCommMonoid V] [AddCommMonoid K]
    (dot : V → V → K) : Prop where
  symm : ∀ x y, dot x y = dot y x
  add_right : ∀ x y z, dot x (y + z) = dot x y + dot x z

/-- All collaborators of the linear cost function are `K`-linear maps. -/
def LinearCollaborators (K : Type) {X Y : Type} [Semiring K] [AddCommMonoid X]
    [AddCommMonoid Y] [Module K X] [Module K Y]
    (Binv : X → X) (n : Nat) (term : Nat → LinearTerm X Y) : Prop :=
  IsLinearMap K Binv ∧ ∀ jj, jj < n →
    IsLinearMap K (term jj).H ∧ IsLinearMap K (term jj).Ht ∧ IsLinearMap K (term jj).Rinv

/-- The calls logged by the `Jo + Jc` loop after `k` rounds. -/
def termCalls (iq : Nat) : Nat → List Call
  | 0 => []
  | k + 1 => termCalls iq k ++
      [Call.releaseOutputFromTL (iq + k), Call.multiplyCoInv k, Call.setupAD k]

/-- The adjoint output `Σ_j H_jᵗ R_j⁻¹ H_j·dx` of the linear cost function. -/
def adjointOutput {X Y : Type} [AddCommMonoid X] (n : Nat) (term : Nat → LinearTerm X Y) (dx : X) : X :=
  ((List.range n).map (fun jj => (term jj).Ht ((term jj).Rinv ((term jj).H dx)))).sum

/-- All calls of one returning `multiply` with `n` terms and offset `iq`. -/
def multiplyCalls (iq n : Nat) : List Call :=
  [Call.jb_initializeTL] ++ (List.range n).map Call.setupTL ++ [Call.runTLM] ++
    [Call.jb_finalizeTL, Call.jb_multiplyBinv, Call.jb_initializeAD, Call.zeroAD] ++
    termCalls iq n ++ [Call.runADJ] ++ [Call.jb_finalizeAD]

/-- The processors enrolled for the tangent-linear integration (lines 63-70 of
`HessianMatrix::multiply`). -/
def HessianMatrix.costtl {X Y P E : Type} (j : CostFunction X Y P E) (dx : X) : List P :=
  (List.range j.nterms).foldl
    (fun c jj => enrollProcessor c (some (j.jterm_setupTL jj dx)))
    (enrollProcessor [] j.jb_initializeTL)

/-- The offset `iq` of `HessianMatrix::multiply` (lines 66-67). -/
def HessianMatrix.iq {X Y P E : Type} (j : CostFunction X Y P E) : Nat :=
  if j.jb_initializeTL.isSome then 1 else 0

/-- The locals of `HessianMatrix::multiply` when it starts the adjoint integration. -/
structure Forward (X Y P : Type) where
  /-- the processors after the tangent-linear integration -/
  costtl : List P
  /-- the background contribution held by `dz` -/
  dz : X
  /-- the zeroed adjoint accumulator `dw` -/
  dw : X
  ww : List Y
  zz : List Y
  /-- the processor returned by `initializeAD`, or the null pointer -/
  jqad : Option P
  /-- the processors enrolled for the adjoint integration -/
  costad : List P

/-- The part of `HessianMatrix::multiply` before the adjoint integration (lines 62-100):
the calls issued, and the locals built or the failure. -/
def HessianMatrix.forward {X Y P E : Type} [AddCommMonoid X]
    (j : CostFunction X Y P E) (dx : X) : List Call × Except (Failure E) (Forward X Y P) :=
  let calls := [Call.jb_initializeTL] ++ (List.range j.nterms).map Call.setupTL ++ [Call.runTLM]
  match j.runTLM dx (HessianMatrix.costtl j dx) with
  | .error e => (calls, .error (.tlm e))
  | .ok (_mdx, costtl) =>
    let jqtl := if HessianMatrix.iq j = 1 then costtl.head? else none
    let dw := j.jb_finalizeTL jqtl dx 0
    let tmp := j.jb_multiplyBinv dw 0
    let (dz, jqad) := j.jb_initializeAD 0 tmp
    let costad := enrollProcessor [] jqad
    let dw := j.zeroAD dw
    let calls := calls ++
      [Call.jb_finalizeTL, Call.jb_multiplyBinv, Call.jb_initializeAD, Call.zeroAD]
    match termLoop j costtl (HessianMatrix.iq j) dw
        { ww := [], zz := [], costad := costad, calls := calls } with
    | .error pos => (calls, .error (.outOfRange pos))
    | .ok t =>
      (t.calls, .ok { costtl := costtl, dz := dz, dw := dw, ww := t.ww, zz := t.zz,
                      jqad := jqad, costad := t.costad })

/-- Successive calls `multiply(dx, dz)` of one operator, for the pairs `(dx, dz)` of a
list: the operator after the last call, if every call returns. -/
def HessianMatrix.multiplyAll {X Y P E K : Type} [AddCommMonoid X] [AddCommMonoid K]
    (dotX : X → X → K) (dotY : Y → Y → K) (j : CostFunction X Y P E) :
    HessianMatrix → List (X × X) → Option HessianMatrix
  | self, [] => some self
  | self, (dx, dz) :: rest =>
    match (HessianMatrix.multiply dotX dotY j self dx dz).result with
    | .ok r => HessianMatrix.multiplyAll dotX dotY j r.self rest
    | .error _ => none

/-- A call that sets up a processor of a term. -/
def Call.isSetup : Call → Bool
  | .setupTL _ => true
  | .setupAD _ => true
  | _ => false

/-- A call that releases something from an enrolled processor. -/
def Call.isRelease : Call → Bool
  | .releaseOutputFromTL _ => true
  | _ => false

/-- Modelled from the spec: a failure inside the tangent-linear or adjoint integration
raises the model's error.  The cost function `linearCost` whose `runTLM` raises `tlm` and
whose `runADJ` raises `adj`, when these are given. -/
def faultyCost {X Y E : Type} [AddCommMonoid X] [Zero Y] (tlm adj : Option E)
    (jq : Bool) (Binv : X → X) (nterms : Nat) (term : Nat → LinearTerm X Y) :
    CostFunction X Y (LinearHook Y) E where
  nterms := nterms
  jb_initializeTL := (linearCost jq Binv nterms term).jb_initializeTL
  jterm_setupTL := (linearCost jq Binv nterms term).jterm_setupTL
  runTLM := fun mdx pp =>
    match tlm with
    | some e => .error e
    | none =>
      match (linearCost jq Binv nterms term).runTLM mdx pp with
      | .ok r => .ok r
      | .error e => e.elim
  jb_finalizeTL := (linearCost jq Binv nterms term).jb_finalizeTL
  jb_multiplyBinv := (linearCost jq Binv nterms term).jb_multiplyBinv
  jb_initializeAD := (linearCost jq Binv nterms term).jb_initializeAD
  zeroAD := (linearCost jq Binv nterms term).zeroAD
  releaseOutputFromTL := (linearCost jq Binv nterms term).releaseOutputFromTL
  jterm_multiplyCoInv := (linearCost jq Binv nterms term).jterm_multiplyCoInv
  jterm_setupAD := (linearCost jq Binv nterms term).jterm_setupAD
  runADJ := fun dw pp =>
    match adj with
    | some e => .error e
    | none =>
      match (linearCost jq Binv nterms term).runADJ dw pp with
      | .ok r => .ok r
      | .error e => e.elim

/-! ## Ensemble -/

/-- A model state (`State<MODEL>`): its valid time and its fields. -/
structure State (T V : Type) where
  validTime : T
  fields : V

/-- The configuration of an ensemble: the integer `members` and the list of member
descriptors `state`. -/
structure EnsembleConfig (D : Type) where
  members : Int
  state : List D

/-- The value `rank_(conf.getInt("members"))`: the `int` read from the configuration,
converted to `unsigned int`. -/
def EnsembleConfig.rank {D : Type} (conf : EnsembleConfig D) : Nat :=
  (conf.members % 4294967296).toNat

/-- The operations of `MODEL` used by `Ensemble::linearize`. -/
structure Model (T G D V : Type) where
  /-- Source `State_(resol, xb)`: the state `xb` at resolution `resol` -/
  changeResolution : G → State T V → State T V
  /-- Source `xread.read(conf)` on a state of resolution `resol`: what `xread` holds afterwards -/
  read : G → D → State T V

/-- The members of `Ensemble<MODEL>` (the variables `vars_` play no part here). -/
structure Ensemble (T G D V : Type) where
  config_ : EnsembleConfig D
  validTime_ : T
  resol_ : Option G
  rank_ : Nat
  ensemblePerturbs_ : List V

/-- The constructor `Ensemble(validTime, conf)`: there is no perturbation yet. -/
def Ensemble.new {T G D V : Type} (validTime : T) (conf : EnsembleConfig D) :
    Ensemble T G D V :=
  { config_ := conf, validTime_ := validTime, resol_ := none,
    rank_ := conf.rank, ensemblePerturbs_ := [] }

/-- Source `Ensemble::size()`. -/
def Ensemble.size {T G D V : Type} (self : Ensemble T G D V) : Nat :=
  self.rank_

/-- Source `Ensemble::operator[](ii)` for an index `ii ≥ 0`: the stored perturbation at that
position, if there is one. -/
def Ensemble.get? {T G D V : Type} (self : Ensemble T G D V) (ii : Nat) : Option V :=
  self.ensemblePerturbs_[ii]?

/-- The assertion of `Ensemble::linearize` that failed. -/
inductive LinearizeFailure where
  /-- Source `ASSERT(xb.validTime() == validTime_)` -/
  | backgroundTime
  /-- Source `ASSERT(confs.size() == rank_)` -/
  | memberCount
  /-- Source `ASSERT(xread.validTime() == validTime_)` for member `jm` -/
  | memberTime (jm : Nat)
  deriving DecidableEq, Repr

/-- Outcome of a call of `linearize`: the object after the call, the member
descriptors read, in order, and the assertion that failed, if one did. -/
structure Linearized (T G D V : Type) where
  self : Ensemble T G D V
  reads : List D
  failure : Option LinearizeFailure

/-- The variables changed by the loop over the members in the two-argument
`linearize` (lines 104-115). -/
structure MemberLoopA (D V : Type) where
  ensemblePerturbs_ : List V
  bgmean : V
  reads : List D
  jm : Nat

/-- The loop of lines 104-115 over the descriptors `confs[jm]`, `jm < rank_`
(`confs.size() == rank_` has been asserted): read the member, check its valid time,
append `xread - xblr`, accumulate `-rr * xread`. -/
def readMembersA {T G D V K : Type} [DecidableEq T] [Field K] [AddCommGroup V] [Module K V]
    (M : Model T G D V) (resol : G) (validTime : T) (xblr : State T V) (rr : K) :
    List D → MemberLoopA D V → MemberLoopA D V × Option LinearizeFailure
  | [], s => (s, none)
  | conf :: confs, s =>
    let xread := M.read resol conf
    let s := { s with reads := s.reads ++ [conf] }
    if xread.validTime = validTime then
      readMembersA M resol validTime xblr rr confs
        { s with
          ensemblePerturbs_ := s.ensemblePerturbs_ ++ [xread.fields - xblr.fields],
          bgmean := s.bgmean + (-rr) • xread.fields,
          jm := s.jm + 1 }
    else (s, some (.memberTime s.jm))

/-- The loop of lines 119-122: `ensemblePerturbs_[jm] += bgmean; ensemblePerturbs_[jm] *= rk`
for `jm < rank_`. -/
def recenterA {V K : Type} [Field K] [AddCommGroup V] [Module K V]
    (rank : Nat) (bgmean : V) (rk : K) (perturbs : List V) : List V :=
  (List.range rank).foldl
    (fun ps jm => (ps.modify (fun p => p + bgmean) jm).modify (fun p => rk • p) jm) perturbs

/-- Source `Ensemble::linearize(xb, resol)` (lines 90-123).  `sqrt` is the square root of
`double`; the `Accumulator` (not among the sources) starts at zero and `accumul(w, x)`
adds `w * x` to it; a failed `ASSERT` ends the call, leaving the object as it is then. -/
def Ensemble.linearize {T G D V K : Type} [DecidableEq T] [Field K] [AddCommGroup V]
    [Module K V] (M : Model T G D V) (sqrt : K → K)
    (self : Ensemble T G D V) (xb : State T V) (resol : G) : Linearized T G D V :=
  if xb.validTime = self.validTime_ then
    let self := { self with resol_ := some resol }
    let xblr := M.changeResolution resol xb
    let bgmean : V := 0 + (1 : K) • xblr.fields
    let rr : K := 1 / (self.rank_ : K)
    let confs := self.config_.state
    if confs.length = self.rank_ then
      match readMembersA M resol self.validTime_ xblr rr confs
          { ensemblePerturbs_ := self.ensemblePerturbs_, bgmean := bgmean, reads := [], jm := 0 } with
      | (s, some f) =>
        { self := { self with ensemblePerturbs_ := s.ensemblePerturbs_ },
          reads := s.reads, failure := some f }
      | (s, none) =>
        -- Re-center around mean instead of bg and rescale
        let rk : K := 1 / sqrt ((self.rank_ : K) - 1)
        { self := { self with
            ensemblePerturbs_ := recenterA self.rank_ s.bgmean rk s.ensemblePerturbs_ },
          reads := s.reads, failure := none }
    else { self := self, reads := [], failure := some .memberCount }
  else { self := self, reads := [], failure := some .backgroundTime }

/-- The variables changed by the first loop of the three-argument `linearize`
(lines 142-149). -/
structure MemberLoopB (T D V : Type) where
  ens_ : List (State T V)
  bgmean : V
  reads : List D
  jm : Nat

/-- The loop of lines 142-149: read the member, check its valid time, keep it in
`ens_`, accumulate `rr * xread`. -/
def readMembersB {T G D V K : Type} [DecidableEq T] [Field K] [AddCommGroup V] [Module K V]
    (M : Model T G D V) (resol : G) (validTime : T) (rr : K) :
    List D → MemberLoopB T D V → MemberLoopB T D V × Option LinearizeFailure
  | [], s => (s, none)
  | conf :: confs, s =>
    let xread := M.read resol conf
    let s := { s with reads := s.reads ++ [conf] }
    if xread.validTime = validTime then
      readMembersB M resol validTime rr confs
        { s with
          ens_ := s.ens_ ++ [xread],
          bgmean := s.bgmean + rr • xread.fields,
          jm := s.jm + 1 }
    else (s, some (.memberTime s.jm))

/-- The loop of lines 152-164 over `ens_[jm]`, `jm < rank_` (`ens_` has `rank_`
entries): append the inverse balance operator applied to `ens_[jm] - bgmean`, then
`ensemblePerturbs_[jm] *= rk`. -/
def unbalanceB {T V K : Type} [Field K] [AddCommGroup V] [Module K V]
    (transformInverse : V → V) (bgmean : V) (rk : K) :
    List (State T V) → Nat → List V → List V
  | [], _, perturbs => perturbs
  | x :: ens, jm, perturbs =>
    let dx := x.fields - bgmean
    let dxunbal := transformInverse dx
    unbalanceB transformInverse bgmean rk ens (jm + 1)
      ((perturbs ++ [dxunbal]).modify (fun p => rk • p) jm)

/-- Source `Ensemble::linearize(xb, resol, balop)` (lines 127-165).  `transformInverse` is the
inverse of the balance operator `balop` (the source spells the call
`balop_->tranformInverse`; `balop` is the only variable change in scope). -/
def Ensemble.linearizeBalanced {T G D V K : Type} [DecidableEq T] [Field K] [AddCommGroup V]
    [Module K V] (M : Model T G D V) (sqrt : K → K)
    (self : Ensemble T G D V) (xb : State T V) (resol : G) (transformInverse : V → V) :
    Linearized T G D V :=
  if xb.validTime = self.validTime_ then
    let self := { self with resol_ := some resol }
    let bgmean : V := 0
    let rr : K := 1 / (self.rank_ : K)
    let confs := self.config_.state
    if confs.length = self.rank_ then
      match readMembersB M resol self.validTime_ rr confs
          { ens_ := [], bgmean := bgmean, reads := [], jm := 0 } with
      | (s, some f) => { self := self, reads := s.reads, failure := some f }
      | (s, none) =>
        let rk : K := 1 / sqrt ((self.rank_ : K) - 1)
        { self := { self with
            ensemblePerturbs_ :=
              unbalanceB transformInverse s.bgmean rk s.ens_ 0 self.ensemblePerturbs_ },
          reads := s.reads, failure := none }
    else { self := self, reads := [], failure := some .memberCount }
  else { self := self, reads := [], failure := some .backgroundTime }

/-- The arithmetic mean `(1/R)·Σ members` of the fields of the members read from the
descriptors `confs`, for `R = rank`. -/
def memberMean (K : Type) {T G D V : Type} [Field K] [AddCommGroup V] [Module K V]
    (M : Model T G D V) (resol : G) (rank : Nat) (confs : List D) : V :=
  (1 / (rank : K)) • (confs.map (fun d => (M.read resol d).fields)).sum

/-! ## SaddlePointMinimizer -/

/-- The two options `doMinimize` reads: the `int` option `ninner` and the
floating-point option `gradient_norm_reduction`. -/
structure MinimizerConfig (K : Type) where
  ninner : Int
  gradient_norm_reduction : K

/-- The interface of `CostFunction<MODEL>` as `doMinimize` uses it. -/
structure MinimizerCost (X Y : Type) where
  /-- Source `J_.nterms()` -/
  nterms : Nat
  /-- Source `J_.jb().getFirstGuess()` -/
  getFirstGuess : X
  /-- Source `J_.jterm(jj).newDualVector()` -/
  newDualVector : Nat → Y
  /-- Source `J_.jterm(jj).newGradientFG()` -/
  newGradientFG : Nat → Y
  /-- Source `J_.jterm(jj).multiplyCovar(w)` -/
  multiplyCovar : Nat → Y → Y

/-- Modelled from the spec: `DualVector` is not among the sources.  As `Multipliers_` it
holds the control increment set by `dx(...)`, if any, and the entries in the order they
were appended. -/
structure Multipliers (X Y : Type) where
  dx : Option X
  entries : List Y

/-- Modelled from the spec: `SaddlePointVector` is not among the sources.  It is the pair
of a control increment and multipliers. -/
structure SaddlePointVector (X Y : Type) where
  dx : X
  lambda : Multipliers X Y

/-- Modelled from the spec: the arithmetic of `SaddlePointVector` is componentwise;
`operator*=` scales every component. -/
def SaddlePointVector.scale {X Y K : Type} [SMul K X] [SMul K Y] (v : SaddlePointVector X Y)
    (a : K) : SaddlePointVector X Y :=
  { dx := a • v.dx,
    lambda := { dx := v.lambda.dx.map (fun x => a • x),
                entries := v.lambda.entries.map (fun y => a • y) } }

/-- Conversion of a floating-point value to `int`: the fractional part is discarded. -/
def doubleToInt {K : Type} [LinearOrderedField K] [FloorRing K] (x : K) : Int :=
  if 0 ≤ x then ⌊x⌋ else ⌈x⌉

/-- What one call of `doMinimize` does: the arguments of its call of the solver, the
value written to the test channel and the increment returned. -/
structure Minimized (X Y K : Type) where
  /-- the unknown handed to `GMRESR` -/
  unknown : SaddlePointVector X Y
  /-- the right-hand side handed to `GMRESR` -/
  rhs : SaddlePointVector X Y
  /-- the iteration cap handed to `GMRESR` -/
  maxiter : Int
  /-- the reduction target handed to `GMRESR` -/
  tolerance : K
  /-- the value written after "reduction in residual norm = " -/
  reported : K
  /-- the returned control increment -/
  dx : X

/-- Source `SaddlePointMinimizer::doMinimize(config)` (lines 68-129).  `GMRESR` stands for the
solver applied to the saddle-point matrix and the preconditioner of `J`: from the
unknown, the right-hand side, the iteration cap and the reduction target it gives the
final iterate and the achieved reduction.  `CtrlInc_(J_.jb())` is the zero increment. -/
def SaddlePointMinimizer.doMinimize {X Y K : Type} [LinearOrderedField K] [FloorRing K]
    [AddCommGroup X] [Module K X] [AddCommGroup Y] [Module K Y]
    (GMRESR : SaddlePointVector X Y → SaddlePointVector X Y → Int → K →
      SaddlePointVector X Y × K)
    (J : MinimizerCost X Y) (config : MinimizerConfig K) : Minimized X Y K :=
  let ninner : Int := config.ninner
  let gnreduc : Int := doubleToInt config.gradient_norm_reduction
  -- Define saddle-point control vectors
  let pdxx : Multipliers X Y := { dx := some 0, entries := [] }
  let pdxx := (List.range J.nterms).foldl
    (fun m jj => { m with entries := m.entries ++ [J.newDualVector jj] }) pdxx
  let tmp1 : X := 0
  let spdx : SaddlePointVector X Y := { dx := tmp1, lambda := pdxx }
  -- Compute RHS
  let tmp3 : X := J.getFirstGuess
  let pdfg : Multipliers X Y := { dx := some tmp3, entries := [] }
  let pdfg := (List.range J.nterms).foldl
    (fun m jj =>
      let ww := J.newGradientFG jj
      { m with entries := m.entries ++ [J.multiplyCovar jj ww] }) pdfg
  let tmp2 : X := 0
  let rhs : SaddlePointVector X Y := { dx := tmp2, lambda := pdfg }
  let rhs := rhs.scale (-1 : K)
  -- Solve the linear system
  let solved := GMRESR spdx rhs ninner (gnreduc : K)
  let reduc : K := solved.2
  let dx : X := solved.1.dx
  { unknown := spdx, rhs := rhs, maxiter := ninner, tolerance := (gnreduc : K),
    reported := reduc, dx := dx }

/-- What is written to an output stream: a text, a floating-point value together with
the precision in force when it was written, or the end of a line. -/
inductive LogItem (K : Type) where
  | text (s : String)
  | number (precision : Int) (value : K)
  | endl

/-- An output stream such as `Log::test()`: its current precision and what has been
written to it, in order. -/
structure LogChannel (K : Type) where
  precision : Int
  written : List (LogItem K)

/-- Writing a text or `std::endl` to a stream. -/
def LogChannel.put {K : Type} (c : LogChannel K) (item : LogItem K) : LogChannel K :=
  { c with written := c.written ++ [item] }

/-- Writing a floating-point value to a stream: it is formatted with the current
precision. -/
def LogChannel.putNumber {K : Type} (c : LogChannel K) (value : K) : LogChannel K :=
  { c with written := c.written ++ [LogItem.number c.precision value] }

/-- Writing `std::setprecision(n)` to a stream. -/
def LogChannel.setprecision {K : Type} (c : LogChannel K) (n : Int) : LogChannel K :=
  { c with precision := n }

/-- The test channel `Log::test()` after `SaddlePointMinimizer::doMinimize(config)`, when
it was `test` before (lines 120-122); `reduc` is the value returned by the call of
`GMRESR` of line 116. -/
def SaddlePointMinimizer.doMinimizeTest {X Y K : Type} [LinearOrderedField K] [FloorRing K]
    [AddCommGroup X] [Module K X] [AddCommGroup Y] [Module K Y]
    (GMRESR : SaddlePointVector X Y → SaddlePointVector X Y → Int → K →
      SaddlePointVector X Y × K)
    (J : MinimizerCost X Y) (config : MinimizerConfig K) (test : LogChannel K) :
    LogChannel K :=
  let reduc : K := (SaddlePointMinimizer.doMinimize GMRESR J config).reported
  let ss : Int := test.precision
  ((((test.put (LogItem.text "SaddlePointMinimizer: reduction in residual norm = ")
    ).setprecision 4).putNumber reduc).setprecision ss).put LogItem.endl

/-! ## GeoVaLs -/

/-- The operations of `MODEL::GeoVaLs` that `GeoVaLs<MODEL>` forwards to: `Gv` is the
type `MODEL::GeoVaLs`, `K` the type of `double`. -/
structure GeoVaLsModel (Gv K : Type) where
  /-- Source `gvals_->zero()`: the object afterwards -/
  zero : Gv → Gv
  /-- Source `gvals_->random()`: the object afterwards -/
  random : Gv → Gv
  /-- Source `gvals_->dot_product_with(other)` -/
  dot_product_with : Gv → Gv → K

/-- Source `GeoVaLs<MODEL>::zero()` (lines 205-211). -/
def GeoVaLs.zero {Gv K : Type} (M : GeoVaLsModel Gv K) (gvals_ : Gv) : Gv :=
  M.zero gvals_

/-- Source `GeoVaLs<MODEL>::random()` (lines 226-232). -/
def GeoVaLs.random {Gv K : Type} (M : GeoVaLsModel Gv K) (gvals_ : Gv) : Gv :=
  M.random gvals_

/-- Source `GeoVaLs<MODEL>::dot_product_with(other)` (lines 123-130), which is
`dot_product(this, other)`. -/
def GeoVaLs.dot_product_with {Gv K : Type} (M : GeoVaLsModel Gv K) (gvals_ other : Gv) : K :=
  M.dot_product_with gvals_ other

/-- Modelled from the spec: the random generator behind `MODEL::GeoVaLs::random()` is not
among the sources.  `draw i` is the `i`-th number it hands out; the numbers it hands out
are not zero, as the spec requires of `random()` ("after `random()`, dot(v, v) > 0"). -/
structure RandomDraws (K : Type) [Zero K] where
  draw : Nat → K
  draw_ne_zero : ∀ i, draw i ≠ 0

/-- Modelled from the spec: the data of `MODEL::GeoVaLs`, which is not among the sources.
An algebraic container of values, one for each variable at each observation location,
holding at least one value: `first`, followed by `rest`. -/
structure GeoValues (K : Type) where
  first : K
  rest : List K

/-- The values of the container in their order. -/
def GeoValues.values {K : Type} (v : GeoValues K) : List K :=
  v.first :: v.rest

/-- Modelled from the spec: `MODEL::GeoVaLs` is not among the sources.  An algebraic
container supporting zero and random initialization and an inner product: `zero` sets
every value to 0, `random` replaces value `i` by the number `draw i` handed out by the
random generator, the inner product is the sum of the products of the values at the same
position. -/
def valuesGeoVaLs {K : Type} [Field K] (g : RandomDraws K) :
    GeoVaLsModel (GeoValues K) K where
  zero := fun v => ⟨0, v.rest.map (fun _ => 0)⟩
  random := fun v => ⟨g.draw 0, (List.range v.rest.length).map (fun i => g.draw (i + 1))⟩
  dot_product_with := fun v w => (List.zipWith (fun a b => a * b) v.values w.values).sum

/-- One round of the loop of `testUtils` (test file, lines 100-115): whether its two
`EXPECT`s hold.  `gval` is the object as constructed from the locations and the
variables of the observation operator. -/
def testUtilsRound {Gv K : Type} [LinearOrderedField K] (M : GeoVaLsModel Gv K)
    (gval : Gv) : Bool :=
  let gval := GeoVaLs.random M gval
  let zz1 := GeoVaLs.dot_product_with M gval gval
  let gval := GeoVaLs.zero M gval
  let zz2 := GeoVaLs.dot_product_with M gval gval
  decide (zz1 > 0) && decide (zz2 = 0)

/-! ## ObsFilters -/

/-- What the constructor of `ObsFilters<OBS>` uses: `C` is the type of the configuration
of one filter, `F` the type of a filter, `Var` of a variable name. -/
structure FilterEnv (C F Var : Type) where
  /-- The string `confs[jj].getString("apply at iterations")`, when
  `confs[jj].has("apply at iterations")` -/
  applyAtIterations : C → Option String
  /-- Source `parseIntSet(s)`: the members of the set -/
  parseIntSet : String → List Int
  /-- Source `FilterFactory<OBS>::create(os, conf, qcflags, obserr)` -/
  create : C → F
  /-- The configuration `preconf` with `filter` set to `QCmanager` -/
  preconf : C
  /-- Source `tmp->requiredVars()` -/
  requiredVars : F → List Var
  /-- Source `tmp->requiredHdiagnostics()` -/
  requiredHdiagnostics : F → List Var

/-- The members of `ObsFilters<OBS>`; `Variables` are lists of names and `+=` appends. -/
structure ObsFilters (F Var : Type) where
  filters_ : List F
  geovars_ : List Var
  diagvars_ : List Var

/-- Whether the filter configured by `c` is applied at iteration `iter` (lines 89-95). -/
def ObsFilters.apply {C F Var : Type} (env : FilterEnv C F Var) (iter : Int) (c : C) : Bool :=
  let apply : Bool := decide (iter = 0)
  match env.applyAtIterations c with
  | some s => decide (iter ∈ env.parseIntSet s)
  | none => apply

/-- The constructor `ObsFilters(os, conf, qcflags, obserr)` (lines 69-105): `confs` is the
list `obs filters` of `conf` and `iteration` its integer `iteration`. -/
def ObsFilters.new {C F Var : Type} (env : FilterEnv C F Var) (iteration : Int)
    (confs : List C) : ObsFilters F Var :=
  -- Prepare QC handling and statistics if any filters are present
  let filters : List F := if confs.length > 0 then [env.create env.preconf] else []
  -- Create the filters
  confs.foldl
    (fun self c =>
      if ObsFilters.apply env iteration c then
        let tmp := env.create c
        { filters_ := self.filters_ ++ [tmp],
          geovars_ := self.geovars_ ++ env.requiredVars tmp,
          diagvars_ := self.diagvars_ ++ env.requiredHdiagnostics tmp }
      else self)
    { filters_ := filters, geovars_ := [], diagvars_ := [] }

/-- The default constructor `ObsFilters()` (lines 109-110). -/
def ObsFilters.empty {F Var : Type} : ObsFilters F Var :=
  { filters_ := [], geovars_ := [], diagvars_ := [] }

/-! ## StateEnsemble -/

/-- The member of `StateEnsemble<MODEL>`. -/
structure StateEnsemble (V : Type) where
  states_ : List V

/-- The constructor `StateEnsemble(resol, vars, config)` (lines 48-61): `memberConfig` is
the list `members` of `config`, and `create d` the state `State_(resol, vars, d)`. -/
def StateEnsemble.new {D V : Type} (create : D → V) (memberConfig : List D) :
    StateEnsemble V :=
  { states_ := memberConfig.foldl (fun states d => states ++ [create d]) [] }

/-- Source `StateEnsemble::size()` (line 38): `states_.size()` converted to `unsigned int`. -/
def StateEnsemble.size {V : Type} (self : StateEnsemble V) : Nat :=
  self.states_.length % 4294967296

/-- Source `StateEnsemble::mean()` (lines 65-77), for an ensemble with a first state.  The
`Accumulator` (not among the sources) built from `states_[0]` has the shape of that state
and starts at zero; `accumul(w, x)` adds `w * x` to it. -/
def StateEnsemble.mean (K : Type) {V : Type} [Field K] [AddCommGroup V] [Module K V]
    (self : StateEnsemble V) : Option V :=
  match self.states_ with
  | [] => none
  | _ :: _ =>
    let ensmean : V := 0
    let rr : K := 1 / (self.states_.length : K)
    some (self.states_.foldl (fun ensmean x => ensmean + rr • x) ensmean)

/-! ## Test of the inverse of a linear variable change -/

/-- The two operations of `LinearVariableChangeBase<MODEL>` used by
`testLinearVariableChangeInverse`, out-parameters returned. -/
structure LinearVariableChange (V W : Type) where
  /-- Source `multiply(dxout, Kdxout)`: the new second argument -/
  multiply : W → V
  /-- Source `multiplyInverse(dxin, KIdxin)`: the new second argument -/
  multiplyInverse : V → W

/-- One round of the loop of `testLinearVariableChangeInverse` (lines 210-246): whether
its `EXPECT` holds.  `tol` is the option `toleranceInverse`, `testinverse` the option of
that name, `dxin` the increment after `dxin.random()`, `norm` the norm of increments. -/
def inverseTestRound {V W K : Type} [LinearOrderedField K] (norm : V → K) (tol : K)
    (testinverse : Bool) (changevar : LinearVariableChange V W) (dxin : V) : Bool :=
  if testinverse then
    let KIdxin := changevar.multiplyInverse dxin
    let KKIdxin := changevar.multiply KIdxin
    let zz1 := norm dxin
    let zz2 := norm KKIdxin
    decide (zz1 - zz2 < tol)
  else
    decide ((1 : K) < 2)

/-! ## Lemmas and claims -/

section HessianLemmas

variable {X Y : Type} [AddCommMonoid X] [Zero Y]

/-- The processors enrolled by the first loop of `multiply`. -/
theorem foldl_enroll_range {P : Type} (f : Nat → P) (n : Nat) (c : List P) :
    (List.range n).foldl (fun c jj => enrollProcessor c (some (f jj))) c
      = c ++ (List.range n).map f := by
  induction n with
  | zero => simp
  | succ n ih =>
    rw [List.range_succ, List.foldl_append, ih]
    simp [enrollProcessor]

theorem termLoop_linear_aux (jq : Bool) (Binv : X → X) (n : Nat)
    (term : Nat → LinearTerm X Y) (dx dw : X) (pre cad : List (LinearHook Y))
    (c0 : List Call) (k : Nat) (hk : k ≤ n) :
    (List.range k).foldl
      (fun (acc : Except Nat (TermLoop Y (LinearHook Y))) jj =>
        acc.bind (fun t => termStep (linearCost jq Binv n term)
          (pre ++ (List.range n).map (fun jj => LinearHook.tl jj ((term jj).H dx)))
          pre.length dw t jj))
      (Except.ok { ww := [], zz := [], costad := cad, calls := c0 })
    = Except.ok {
        ww := (List.range k).map (fun jj => (term jj).H dx),
        zz := (List.range k).map (fun jj => (term jj).Rinv ((term jj).H dx)),
        costad := cad ++ (List.range k).map
          (fun jj => LinearHook.ad jj ((term jj).Rinv ((term jj).H dx))),
        calls := c0 ++ termCalls pre.length k } := by
  induction k with
  | zero => simp [termCalls]
  | succ k ih =>
    have hk1 : k < n := hk
    rw [List.range_succ, List.foldl_append, ih (Nat.le_of_lt hk1)]
    simp [Except.bind, termStep, hk1, linearCost, enrollProcessor, termCalls,
      List.getElem?_append_right]

/-- Every call of `multiply` on a linear cost function returns, and this is what it
returns. -/
theorem multiply_linearCost {K : Type} [AddCommMonoid K]
    (dotX : X → X → K) (dotY : Y → Y → K)
    (jq : Bool) (Binv : X → X) (n : Nat) (term : Nat → LinearTerm X Y)
    (self : HessianMatrix) (dx dz : X) :
    HessianMatrix.multiply dotX dotY (linearCost jq Binv n term) self dx dz =
      { calls := multiplyCalls (if jq then 1 else 0) n,
        result := Except.ok {
          dz := Binv dx + adjointOutput n term dx,
          dw := adjointOutput n term dx,
          ww := (List.range n).map (fun jj => (term jj).H dx),
          zz := (List.range n).map (fun jj => (term jj).Rinv ((term jj).H dx)),
          self := { test_ := self.test_, iter_ := self.iter_ + 1 },
          report :=
            if self.test_ then
              some { iteration := self.iter_ + 1,
                     adj_tst_fwd := dualDot dotY
                       ((List.range n).map (fun jj => (term jj).H dx))
                       ((List.range n).map (fun jj => (term jj).Rinv ((term jj).H dx))),
                     adj_tst_bwd := dotX dx (adjointOutput n term dx) }
            else none } } := by
  have hloop := fun pre cad => termLoop_linear_aux jq Binv n term dx (0 : X) pre cad
    ([Call.jb_initializeTL] ++ (List.range n).map Call.setupTL ++ [Call.runTLM] ++
      [Call.jb_finalizeTL, Call.jb_multiplyBinv, Call.jb_initializeAD, Call.zeroAD])
    n (Nat.le_refl n)
  have hnt : (linearCost jq Binv n term).nterms = n := rfl
  unfold HessianMatrix.multiply termLoop
  simp only [hnt, foldl_enroll_range]
  cases jq
  · have h0 := hloop [] []
    simp only [linearCost, enrollProcessor, List.nil_append, List.map_map, Option.isSome_none,
      Bool.false_eq_true, if_false, List.length_nil, Function.comp_def] at h0 ⊢
    rw [h0]
    simp [adjointOutput, multiplyCalls, List.map_map, Function.comp_def]
  · have h1 := hloop [LinearHook.jq] [LinearHook.jq]
    simp only [linearCost, enrollProcessor, List.nil_append, List.map_map, Option.isSome_some,
      if_true, List.length_singleton, Function.comp_def, List.map_append, List.map_cons,
      List.map_nil] at h1 ⊢
    rw [h1]
    simp [adjointOutput, multiplyCalls, List.map_map, Function.comp_def]

theorem list_sum_range_eq_finset {M : Type} [AddCommMonoid M] (f : Nat → M) (n : Nat) :
    ((List.range n).map f).sum = ∑ jj ∈ Finset.range n, f jj := by
  induction n with
  | zero => simp
  | succ n ih => simp [List.range_succ, Finset.sum_range_succ, ih]

theorem multiply_linearCost_dz {K : Type} [AddCommMonoid K]
    (dotX : X → X → K) (dotY : Y → Y → K)
    (jq : Bool) (Binv : X → X) (n : Nat) (term : Nat → LinearTerm X Y)
    (self : HessianMatrix) (dx dz : X) :
    (HessianMatrix.multiply dotX dotY (linearCost jq Binv n term) self dx dz).dz?
      = some (Binv dx + ∑ jj ∈ Finset.range n, (term jj).Ht ((term jj).Rinv ((term jj).H dx))) := by
  rw [multiply_linearCost, ← list_sum_range_eq_finset]
  rfl

theorem IsDotProduct.zero_right {V K : Type} [AddCommMonoid V] [AddCommGroup K]
    {dot : V → V → K} (h : IsDotProduct dot) (x : V) : dot x 0 = 0 := by
  have h1 := h.add_right x 0 0
  rw [add_zero] at h1
  exact self_eq_add_left.mp h1

theorem IsDotProduct.sum_right {V K : Type} [AddCommMonoid V] [AddCommGroup K]
    {dot : V → V → K} (h : IsDotProduct dot) (x : V) (f : Nat → V) (n : Nat) :
    dot x (∑ jj ∈ Finset.range n, f jj) = ∑ jj ∈ Finset.range n, dot x (f jj) := by
  induction n with
  | zero => simpa using h.zero_right x
  | succ n ih => rw [Finset.sum_range_succ, Finset.sum_range_succ, h.add_right, ih]

end HessianLemmas

section EnsembleLemmas

variable {T G D V K : Type} [DecidableEq T] [Field K] [AddCommGroup V] [Module K V]

/-- The member loop of the two-argument `linearize` when every member has the
configured valid time. -/
theorem readMembersA_valid (M : Model T G D V) (resol : G) (validTime : T)
    (xblr : State T V) (rr : K) (confs : List D) (s : MemberLoopA D V)
    (h : ∀ d ∈ confs, (M.read resol d).validTime = validTime) :
    readMembersA M resol validTime xblr rr confs s =
      ({ ensemblePerturbs_ := s.ensemblePerturbs_ ++
           confs.map (fun d => (M.read resol d).fields - xblr.fields),
         bgmean := s.bgmean + (confs.map (fun d => (-rr) • (M.read resol d).fields)).sum,
         reads := s.reads ++ confs,
         jm := s.jm + confs.length }, none) := by
  induction confs generalizing s with
  | nil => simp [readMembersA]
  | cons d ds ih =>
    have hd : (M.read resol d).validTime = validTime := h d (List.mem_cons_self d ds)
    have hds : ∀ e ∈ ds, (M.read resol e).validTime = validTime :=
      fun e he => h e (List.mem_cons_of_mem d he)
    simp only [readMembersA, hd, if_true]
    rw [ih _ hds]
    simp [add_assoc, Nat.add_comm 1]

/-- The member loop fails exactly when a member has another valid time, and it never
changes what was read before it. -/
theorem readMembersA_failure (M : Model T G D V) (resol : G) (validTime : T)
    (xblr : State T V) (rr : K) (confs : List D) (s : MemberLoopA D V) :
    ((readMembersA M resol validTime xblr rr confs s).2 = none ↔
      ∀ d ∈ confs, (M.read resol d).validTime = validTime) := by
  induction confs generalizing s with
  | nil => simp [readMembersA]
  | cons d ds ih =>
    by_cases hd : (M.read resol d).validTime = validTime
    · simp only [readMembersA, hd, if_true, List.mem_cons, forall_eq_or_imp, true_and]
      exact ih _
    · simp [readMembersA, hd]

theorem readMembersB_valid (M : Model T G D V) (resol : G) (validTime : T)
    (rr : K) (confs : List D) (s : MemberLoopB T D V)
    (h : ∀ d ∈ confs, (M.read resol d).validTime = validTime) :
    readMembersB M resol validTime rr confs s =
      ({ ens_ := s.ens_ ++ confs.map (fun d => M.read resol d),
         bgmean := s.bgmean + (confs.map (fun d => rr • (M.read resol d).fields)).sum,
         reads := s.reads ++ confs,
         jm := s.jm + confs.length }, none) := by
  induction confs generalizing s with
  | nil => simp [readMembersB]
  | cons d ds ih =>
    have hd : (M.read resol d).validTime = validTime := h d (List.mem_cons_self d ds)
    have hds : ∀ e ∈ ds, (M.read resol e).validTime = validTime :=
      fun e he => h e (List.mem_cons_of_mem d he)
    simp only [readMembersB, hd, if_true]
    rw [ih _ hds]
    simp [add_assoc, Nat.add_comm 1]

theorem readMembersB_failure (M : Model T G D V) (resol : G) (validTime : T)
    (rr : K) (confs : List D) (s : MemberLoopB T D V) :
    ((readMembersB M resol validTime rr confs s).2 = none ↔
      ∀ d ∈ confs, (M.read resol d).validTime = validTime) := by
  induction confs generalizing s with
  | nil => simp [readMembersB]
  | cons d ds ih =>
    by_cases hd : (M.read resol d).validTime = validTime
    · simp only [readMembersB, hd, if_true, List.mem_cons, forall_eq_or_imp, true_and]
      exact ih _
    · simp [readMembersB, hd]

/-- Entry `i` after the re-centring loop. -/
theorem recenterA_getElem? (n : Nat) (bgmean : V) (rk : K) (l : List V) (i : Nat) :
    (recenterA n bgmean rk l)[i]? =
      if i < n then l[i]?.map (fun p => rk • (p + bgmean)) else l[i]? := by
  unfold recenterA
  induction n with
  | zero => simp
  | succ n ih =>
    rw [List.range_succ, List.foldl_append]
    simp only [List.foldl_cons, List.foldl_nil, List.getElem?_modify]
    rw [ih]
    by_cases h1 : n = i
    · subst h1
      cases hl : l[n]? <;> simp [hl]
    · by_cases h2 : i < n
      · have h3 : i < n + 1 := Nat.lt_succ_of_lt h2
        cases hl : l[i]? <;> simp [hl, h1, h2, h3]
      · have h3 : ¬ i < n + 1 := by omega
        cases hl : l[i]? <;> simp [hl, h1, h2, h3]

theorem recenterA_eq_map (n : Nat) (bgmean : V) (rk : K) (l : List V) (hn : l.length = n) :
    recenterA n bgmean rk l = l.map (fun p => rk • (p + bgmean)) := by
  subst hn
  apply List.ext_getElem?
  intro i
  rw [recenterA_getElem?, List.getElem?_map]
  by_cases h : i < l.length
  · simp [h]
  · simp [h, List.getElem?_eq_none (Nat.le_of_not_lt h)]

theorem modify_append_singleton {α : Type} (f : α → α) (l : List α) (a : α) :
    (l ++ [a]).modify f l.length = l ++ [f a] := by
  induction l with
  | nil => simp
  | cons b l ih => simp [ih]

omit [DecidableEq T] in
theorem unbalanceB_eq (Kinv : V → V) (bgmean : V) (rk : K) (ens : List (State T V))
    (ps : List V) :
    unbalanceB Kinv bgmean rk ens ps.length ps =
      ps ++ ens.map (fun x => rk • Kinv (x.fields - bgmean)) := by
  induction ens generalizing ps with
  | nil => simp [unbalanceB]
  | cons x xs ih =>
    simp only [unbalanceB]
    rw [modify_append_singleton]
    have h := ih (ps ++ [rk • Kinv (x.fields - bgmean)])
    rw [List.length_append, List.length_singleton] at h
    rw [h]
    simp

omit [DecidableEq T] in
theorem sum_neg_smul_fields (M : Model T G D V) (resol : G) (rr : K) (confs : List D) :
    (confs.map (fun d => (-rr) • (M.read resol d).fields)).sum =
      -(rr • (confs.map (fun d => (M.read resol d).fields)).sum) := by
  induction confs with
  | nil => simp
  | cons d ds ih =>
    rw [List.map_cons, List.sum_cons, ih, List.map_cons, List.sum_cons, smul_add, neg_add,
      neg_smul]

/-- The two-argument `linearize` on a freshly constructed ensemble whose valid times
and member count agree: it returns, having read every descriptor once, in order, and
the perturbations are the rescaled deviations of the members from their mean. -/
theorem linearize_new (M : Model T G D V) (sqrt : K → K) (validTime : T)
    (conf : EnsembleConfig D) (xb : State T V) (resol : G)
    (hcount : conf.state.length = conf.rank)
    (hxb : xb.validTime = validTime)
    (hmem : ∀ d ∈ conf.state, (M.read resol d).validTime = validTime) :
    Ensemble.linearize M sqrt (Ensemble.new validTime conf) xb resol =
      { self :=
          { config_ := conf, validTime_ := validTime, resol_ := some resol,
            rank_ := conf.rank,
            ensemblePerturbs_ := conf.state.map (fun d =>
              (1 / sqrt ((conf.rank : K) - 1)) •
                ((M.read resol d).fields - memberMean K M resol conf.rank conf.state)) },
        reads := conf.state,
        failure := none } := by
  unfold Ensemble.linearize
  simp only [Ensemble.new, hxb, hcount, if_true]
  rw [readMembersA_valid M resol validTime _ _ conf.state _ hmem]
  simp only [List.nil_append, List.map_map]
  rw [recenterA_eq_map _ _ _ _ (by rw [List.length_map, hcount]), List.map_map,
    sum_neg_smul_fields]
  congr 2
  apply List.map_congr_left
  intro d _
  simp only [Function.comp_apply, memberMean, zero_add, one_smul]
  congr 1
  abel

/-- The three-argument `linearize` on a freshly constructed ensemble whose valid times
and member count agree. -/
theorem linearizeBalanced_new (M : Model T G D V) (sqrt : K → K) (validTime : T)
    (conf : EnsembleConfig D) (xb : State T V) (resol : G) (Kinv : V → V)
    (hcount : conf.state.length = conf.rank)
    (hxb : xb.validTime = validTime)
    (hmem : ∀ d ∈ conf.state, (M.read resol d).validTime = validTime) :
    Ensemble.linearizeBalanced M sqrt (Ensemble.new validTime conf) xb resol Kinv =
      { self :=
          { config_ := conf, validTime_ := validTime, resol_ := some resol,
            rank_ := conf.rank,
            ensemblePerturbs_ := conf.state.map (fun d =>
              (1 / sqrt ((conf.rank : K) - 1)) •
                Kinv ((M.read resol d).fields - memberMean K M resol conf.rank conf.state)) },
        reads := conf.state,
        failure := none } := by
  unfold Ensemble.linearizeBalanced
  simp only [Ensemble.new, hxb, hcount, if_true]
  rw [readMembersB_valid M resol validTime _ conf.state _ hmem]
  have hub := @unbalanceB_eq T V K _ _ _ Kinv
    (0 + (conf.state.map (fun d => (1 / (conf.rank : K)) • (M.read resol d).fields)).sum)
    (1 / sqrt ((conf.rank : K) - 1)) (conf.state.map (fun d => M.read resol d)) []
  simp only [List.length_nil, List.nil_append, List.map_map] at hub
  simp only [List.nil_append]
  rw [hub]
  congr 2
  apply List.map_congr_left
  intro d _
  simp only [Function.comp_apply, memberMean, zero_add, List.smul_sum, List.map_map]
  rfl

/-- The two-argument `linearize` returns exactly when its three checks hold. -/
theorem linearize_failure_none_iff (M : Model T G D V) (sqrt : K → K)
    (self : Ensemble T G D V) (xb : State T V) (resol : G) :
    (Ensemble.linearize M sqrt self xb resol).failure = none ↔
      (xb.validTime = self.validTime_ ∧ self.config_.state.length = self.rank_ ∧
        ∀ d ∈ self.config_.state, (M.read resol d).validTime = self.validTime_) := by
  unfold Ensemble.linearize
  by_cases h1 : xb.validTime = self.validTime_
  · by_cases h2 : self.config_.state.length = self.rank_
    · simp only [h1, h2, if_true, true_and]
      rw [← readMembersA_failure M resol self.validTime_ (M.changeResolution resol xb)
        (1 / (self.rank_ : K)) self.config_.state
        { ensemblePerturbs_ := self.ensemblePerturbs_,
          bgmean := 0 + (1 : K) • (M.changeResolution resol xb).fields, reads := [], jm := 0 }]
      rcases hr : readMembersA M resol self.validTime_ (M.changeResolution resol xb)
        (1 / (self.rank_ : K)) self.config_.state
        { ensemblePerturbs_ := self.ensemblePerturbs_,
          bgmean := 0 + (1 : K) • (M.changeResolution resol xb).fields, reads := [], jm := 0 }
        with ⟨s, _ | f⟩ <;> simp
    · simp [h1, h2]
  · simp [h1]

/-- The three-argument `linearize` returns exactly when its three checks hold. -/
theorem linearizeBalanced_failure_none_iff (M : Model T G D V) (sqrt : K → K)
    (self : Ensemble T G D V) (xb : State T V) (resol : G) (Kinv : V → V) :
    (Ensemble.linearizeBalanced M sqrt self xb resol Kinv).failure = none ↔
      (xb.validTime = self.validTime_ ∧ self.config_.state.length = self.rank_ ∧
        ∀ d ∈ self.config_.state, (M.read resol d).validTime = self.validTime_) := by
  unfold Ensemble.linearizeBalanced
  by_cases h1 : xb.validTime = self.validTime_
  · by_cases h2 : self.config_.state.length = self.rank_
    · simp only [h1, h2, if_true, true_and]
      rw [← readMembersB_failure M resol self.validTime_
        (1 / (self.rank_ : K)) self.config_.state
        { ens_ := [], bgmean := 0, reads := [], jm := 0 }]
      rcases hr : readMembersB M resol self.validTime_
        (1 / (self.rank_ : K)) self.config_.state
        { ens_ := [], bgmean := 0, reads := [], jm := 0 }
        with ⟨s, _ | f⟩ <;> simp
    · simp [h1, h2]
  · simp [h1]

end EnsembleLemmas

section MultiplyLemmas

variable {X Y P E : Type}

theorem costtl_eq (j : CostFunction X Y P E) (dx : X) :
    HessianMatrix.costtl j dx
      = enrollProcessor [] j.jb_initializeTL ++
          (List.range j.nterms).map (fun jj => j.jterm_setupTL jj dx) := by
  unfold HessianMatrix.costtl
  rw [foldl_enroll_range]

theorem enroll_nil_length (j : CostFunction X Y P E) :
    (enrollProcessor [] j.jb_initializeTL).length = HessianMatrix.iq j := by
  unfold HessianMatrix.iq
  cases j.jb_initializeTL <;> simp [enrollProcessor]

theorem costtl_length (j : CostFunction X Y P E) (dx : X) :
    (HessianMatrix.costtl j dx).length = HessianMatrix.iq j + j.nterms := by
  rw [costtl_eq, List.length_append, enroll_nil_length, List.length_map, List.length_range]

/-- Position `iq + jj` of the enrolled processors holds the processor set up by term
`jj`. -/
theorem costtl_getElem? (j : CostFunction X Y P E) (dx : X) (jj : Nat) (hjj : jj < j.nterms) :
    (HessianMatrix.costtl j dx)[HessianMatrix.iq j + jj]? = some (j.jterm_setupTL jj dx) := by
  rw [costtl_eq, ← enroll_nil_length, List.getElem?_append_right (Nat.le_add_right _ _),
    Nat.add_sub_cancel_left, List.getElem?_map, List.getElem?_range hjj]
  rfl

theorem termStep_some (j : CostFunction X Y P E) (costtl : List P) (iq : Nat) (dw : X)
    (s : TermLoop Y P) (k : Nat) (p : P)
    (hww : s.ww.length = k) (hzz : s.zz.length = k) (hp : costtl[iq + k]? = some p) :
    termStep j costtl iq dw s k = Except.ok {
      ww := s.ww ++ [j.releaseOutputFromTL p],
      zz := s.zz ++ [j.jterm_multiplyCoInv k (j.releaseOutputFromTL p)],
      costad := s.costad ++
        [j.jterm_setupAD k (j.jterm_multiplyCoInv k (j.releaseOutputFromTL p)) dw],
      calls := s.calls ++
        [Call.releaseOutputFromTL (iq + k), Call.multiplyCoInv k, Call.setupAD k] } := by
  have h1 : (s.ww ++ [j.releaseOutputFromTL p])[k]? = some (j.releaseOutputFromTL p) := by
    rw [← hww]; simp
  have h2 : (s.zz ++ [j.jterm_multiplyCoInv k (j.releaseOutputFromTL p)])[k]?
      = some (j.jterm_multiplyCoInv k (j.releaseOutputFromTL p)) := by
    rw [← hzz]; simp
  simp only [termStep, hp, h1, h2, enrollProcessor]

theorem termStep_none (j : CostFunction X Y P E) (costtl : List P) (iq : Nat) (dw : X)
    (s : TermLoop Y P) (k : Nat) (hp : costtl[iq + k]? = none) :
    termStep j costtl iq dw s k = Except.error (iq + k) := by
  simp [termStep, hp]

/-- What the `Jo + Jc` loop has built after `k` rounds, when it got that far. -/
theorem termLoop_foldl_inv (j : CostFunction X Y P E) (costtl : List P) (iq : Nat) (dw : X)
    (cad : List P) (c0 : List Call) (k : Nat) (t : TermLoop Y P)
    (h : (List.range k).foldl
      (fun (acc : Except Nat (TermLoop Y P)) jj =>
        acc.bind (fun t => termStep j costtl iq dw t jj))
      (Except.ok { ww := [], zz := [], costad := cad, calls := c0 }) = Except.ok t) :
    t.ww.length = k ∧ t.zz.length = k ∧ t.calls = c0 ++ termCalls iq k ∧
    t.costad.length = cad.length + k ∧
    (∀ jj, jj < k → ∃ p, costtl[iq + jj]? = some p ∧
      t.ww[jj]? = some (j.releaseOutputFromTL p) ∧
      t.zz[jj]? = some (j.jterm_multiplyCoInv jj (j.releaseOutputFromTL p)) ∧
      t.costad[cad.length + jj]? = some
        (j.jterm_setupAD jj (j.jterm_multiplyCoInv jj (j.releaseOutputFromTL p)) dw)) ∧
    (∀ i, i < cad.length → t.costad[i]? = cad[i]?) := by
  induction k generalizing t with
  | zero =>
    simp only [List.range_zero, List.foldl_nil, Except.ok.injEq] at h
    subst h
    simp [termCalls]
  | succ k ih =>
    rw [List.range_succ, List.foldl_append] at h
    simp only [List.foldl_cons, List.foldl_nil] at h
    cases hf : (List.range k).foldl
      (fun (acc : Except Nat (TermLoop Y P)) jj =>
        acc.bind (fun t => termStep j costtl iq dw t jj))
      (Except.ok { ww := [], zz := [], costad := cad, calls := c0 }) with
    | error e => rw [hf] at h; simp [Except.bind] at h
    | ok t1 =>
      rw [hf] at h
      simp only [Except.bind] at h
      obtain ⟨hw, hz, hc, hl, hpt, hpre⟩ := ih t1 hf
      cases hp : costtl[iq + k]? with
      | none => rw [termStep_none j costtl iq dw t1 k hp] at h; cases h
      | some p =>
        rw [termStep_some j costtl iq dw t1 k p hw hz hp] at h
        injection h with h
        subst h
        refine ⟨by simp [hw], by simp [hz], by simp [hc, termCalls], by simp [hl, Nat.add_assoc],
          ?_, ?_⟩
        · intro jj hjj
          rcases Nat.lt_succ_iff_lt_or_eq.mp hjj with hlt | heq
          · obtain ⟨q, hq, hqw, hqz, hqc⟩ := hpt jj hlt
            refine ⟨q, hq, ?_, ?_, ?_⟩
            · rw [List.getElem?_append_left (by omega)]; exact hqw
            · rw [List.getElem?_append_left (by omega)]; exact hqz
            · rw [List.getElem?_append_left (by omega)]; exact hqc
          · subst heq
            refine ⟨p, hp, ?_, ?_, ?_⟩
            · rw [← hw]; simp
            · rw [← hz]; simp
            · rw [← hl]; simp
        · intro i hi
          rw [List.getElem?_append_left (by omega)]
          exact hpre i hi

/-- The `Jo + Jc` loop gets through when the processors reach up to position
`iq + nterms`. -/
theorem termLoop_foldl_ok (j : CostFunction X Y P E) (costtl : List P) (iq : Nat) (dw : X)
    (cad : List P) (c0 : List Call) (k : Nat) (hk : iq + k ≤ costtl.length) :
    ∃ t, (List.range k).foldl
      (fun (acc : Except Nat (TermLoop Y P)) jj =>
        acc.bind (fun t => termStep j costtl iq dw t jj))
      (Except.ok { ww := [], zz := [], costad := cad, calls := c0 }) = Except.ok t := by
  induction k with
  | zero => exact ⟨_, rfl⟩
  | succ k ih =>
    obtain ⟨t1, ht1⟩ := ih (by omega)
    obtain ⟨hw, hz, _, _, _, _⟩ := termLoop_foldl_inv j costtl iq dw cad c0 k t1 ht1
    have hlt : iq + k < costtl.length := by omega
    rw [List.range_succ, List.foldl_append, ht1]
    simp only [List.foldl_cons, List.foldl_nil, Except.bind]
    exact ⟨_, termStep_some j costtl iq dw t1 k costtl[iq + k] hw hz
      (List.getElem?_eq_getElem hlt)⟩

/-- The call `multiply` is its part before the adjoint integration followed by the
adjoint integration and lines 104-117. -/
theorem multiply_eq_forward {K : Type} [AddCommMonoid X] [AddCommMonoid K]
    (dotX : X → X → K) (dotY : Y → Y → K) (j : CostFunction X Y P E)
    (self : HessianMatrix) (dx dz : X) :
    HessianMatrix.multiply dotX dotY j self dx dz =
      match HessianMatrix.forward j dx with
      | (calls, Except.error f) => { calls := calls, result := Except.error f }
      | (calls, Except.ok fw) =>
        match j.runADJ fw.dw fw.costad with
        | Except.error e =>
          { calls := calls ++ [Call.runADJ], result := Except.error (Failure.adj e) }
        | Except.ok dw =>
          { calls := calls ++ [Call.runADJ] ++ [Call.jb_finalizeAD],
            result := Except.ok {
              dz := fw.dz + dw, dw := dw, ww := fw.ww, zz := fw.zz,
              self := { test_ := self.test_, iter_ := self.iter_ + 1 },
              report :=
                if self.test_ then
                  some { iteration := self.iter_ + 1,
                         adj_tst_fwd := dualDot dotY fw.ww fw.zz,
                         adj_tst_bwd := dotX dx dw }
                else none } } := by
  unfold HessianMatrix.multiply HessianMatrix.forward HessianMatrix.costtl HessianMatrix.iq
  dsimp only
  cases hT : j.runTLM dx ((List.range j.nterms).foldl
      (fun c jj => enrollProcessor c (some (j.jterm_setupTL jj dx)))
      (enrollProcessor [] j.jb_initializeTL)) with
  | error e => rfl
  | ok r =>
    obtain ⟨mdx, ctl⟩ := r
    dsimp only
    split <;> rfl

theorem count_setupTL_other (n : Nat) (c : Call) (hc : ∀ jj, c ≠ Call.setupTL jj) :
    ((List.range n).map Call.setupTL).count c = 0 := by
  rw [List.count_eq_zero]
  intro hmem
  obtain ⟨jj, _, hjj⟩ := List.mem_map.mp hmem
  exact hc jj hjj.symm

theorem count_setupTL_self (n jj : Nat) :
    ((List.range n).map Call.setupTL).count (Call.setupTL jj) = if jj < n then 1 else 0 := by
  induction n with
  | zero => simp
  | succ n ih =>
    rw [List.range_succ, List.map_append, List.count_append, ih]
    by_cases h1 : jj < n
    · have h2 : jj < n + 1 := by omega
      have h3 : n ≠ jj := by omega
      simp [h1, h2, h3, List.count_cons]
    · by_cases h4 : jj = n
      · subst h4; simp [List.count_cons]
      · have h5 : ¬ jj < n + 1 := by omega
        have h6 : n ≠ jj := fun h => h4 h.symm
        simp [h1, h5, h6, List.count_cons]

theorem count_termCalls_other (iq k : Nat) (c : Call)
    (h1 : ∀ pos, c ≠ Call.releaseOutputFromTL pos) (h2 : ∀ jj, c ≠ Call.multiplyCoInv jj)
    (h3 : ∀ jj, c ≠ Call.setupAD jj) : (termCalls iq k).count c = 0 := by
  induction k with
  | zero => simp [termCalls]
  | succ k ih =>
    simp only [termCalls, List.count_append, ih, List.count_cons, List.count_nil, zero_add]
    simp [(h1 (iq + k)).symm, (h2 k).symm, (h3 k).symm]

theorem count_termCalls_release (iq k jj : Nat) :
    (termCalls iq k).count (Call.releaseOutputFromTL (iq + jj)) = if jj < k then 1 else 0 := by
  induction k with
  | zero => simp [termCalls]
  | succ k ih =>
    simp only [termCalls, List.count_append, ih, List.count_cons, List.count_nil]
    by_cases h1 : jj < k
    · have h2 : jj < k + 1 := by omega
      have h3 : k ≠ jj := by omega
      simp [h1, h2, h3]
    · by_cases h4 : jj = k
      · subst h4; simp
      · have h5 : ¬ jj < k + 1 := by omega
        have h6 : k ≠ jj := fun h => h4 h.symm
        simp [h1, h5, h6]

theorem count_termCalls_setupAD (iq k jj : Nat) :
    (termCalls iq k).count (Call.setupAD jj) = if jj < k then 1 else 0 := by
  induction k with
  | zero => simp [termCalls]
  | succ k ih =>
    simp only [termCalls, List.count_append, ih, List.count_cons, List.count_nil]
    by_cases h1 : jj < k
    · have h2 : jj < k + 1 := by omega
      have h3 : k ≠ jj := by omega
      simp [h1, h2, h3]
    · by_cases h4 : jj = k
      · subst h4; simp
      · have h5 : ¬ jj < k + 1 := by omega
        have h6 : k ≠ jj := fun h => h4 h.symm
        simp [h1, h5, h6]

theorem countP_isSetup_setupTL (n : Nat) :
    ((List.range n).map Call.setupTL).countP Call.isSetup = n := by
  induction n with
  | zero => simp
  | succ n ih => simp [List.range_succ, List.countP_append, ih, Call.isSetup]

theorem countP_isRelease_setupTL (n : Nat) :
    ((List.range n).map Call.setupTL).countP Call.isRelease = 0 := by
  induction n with
  | zero => simp
  | succ n ih => simp [List.range_succ, List.countP_append, ih, Call.isRelease]

theorem countP_isSetup_termCalls (iq k : Nat) :
    (termCalls iq k).countP Call.isSetup = k := by
  induction k with
  | zero => simp [termCalls]
  | succ k ih => simp [termCalls, List.countP_append, List.countP_cons, ih, Call.isSetup]

theorem countP_isRelease_termCalls (iq k : Nat) :
    (termCalls iq k).countP Call.isRelease = k := by
  induction k with
  | zero => simp [termCalls]
  | succ k ih => simp [termCalls, List.countP_append, List.countP_cons, ih, Call.isRelease]

theorem forward_tlm_error [AddCommMonoid X] (j : CostFunction X Y P E) (dx : X) (e : E)
    (hT : j.runTLM dx (HessianMatrix.costtl j dx) = Except.error e) :
    HessianMatrix.forward j dx =
      ([Call.jb_initializeTL] ++ (List.range j.nterms).map Call.setupTL ++ [Call.runTLM],
        Except.error (Failure.tlm e)) := by
  unfold HessianMatrix.forward
  rw [hT]

/-- What the part of `multiply` before the adjoint integration has built, when it gets
through. -/
theorem forward_ok_inv [AddCommMonoid X] (j : CostFunction X Y P E) (dx : X)
    (c : List Call) (fw : Forward X Y P)
    (h : HessianMatrix.forward j dx = (c, Except.ok fw)) :
    (∃ mdx, j.runTLM dx (HessianMatrix.costtl j dx) = Except.ok (mdx, fw.costtl)) ∧
    c = [Call.jb_initializeTL] ++ (List.range j.nterms).map Call.setupTL ++ [Call.runTLM] ++
      [Call.jb_finalizeTL, Call.jb_multiplyBinv, Call.jb_initializeAD, Call.zeroAD] ++
      termCalls (HessianMatrix.iq j) j.nterms ∧
    fw.ww.length = j.nterms ∧ fw.zz.length = j.nterms ∧
    fw.costad.length = (enrollProcessor [] fw.jqad).length + j.nterms ∧
    (∀ jj, jj < j.nterms → ∃ p, fw.costtl[HessianMatrix.iq j + jj]? = some p ∧
      fw.ww[jj]? = some (j.releaseOutputFromTL p) ∧
      fw.zz[jj]? = some (j.jterm_multiplyCoInv jj (j.releaseOutputFromTL p)) ∧
      fw.costad[(enrollProcessor [] fw.jqad).length + jj]? = some
        (j.jterm_setupAD jj (j.jterm_multiplyCoInv jj (j.releaseOutputFromTL p)) fw.dw)) := by
  unfold HessianMatrix.forward at h
  cases hT : j.runTLM dx (HessianMatrix.costtl j dx) with
  | error e => rw [hT] at h; simp at h
  | ok r =>
    obtain ⟨mdx, ctl⟩ := r
    rw [hT] at h
    dsimp only at h
    split at h
    · simp at h
    · rename_i t hL
      simp only [Prod.mk.injEq, Except.ok.injEq] at h
      obtain ⟨hc, hfw⟩ := h
      subst hfw
      unfold termLoop at hL
      obtain ⟨hw, hz, hcalls, hl, hpt, _⟩ := termLoop_foldl_inv j ctl (HessianMatrix.iq j) _ _ _
        j.nterms t hL
      refine ⟨⟨mdx, rfl⟩, ?_, hw, hz, hl, hpt⟩
      rw [← hc, hcalls]

theorem forward_ok_of_length [AddCommMonoid X] (j : CostFunction X Y P E) (dx mdx : X)
    (pp : List P) (hT : j.runTLM dx (HessianMatrix.costtl j dx) = Except.ok (mdx, pp))
    (hlen : HessianMatrix.iq j + j.nterms ≤ pp.length) :
    ∃ c fw, HessianMatrix.forward j dx = (c, Except.ok fw) := by
  unfold HessianMatrix.forward
  rw [hT]
  dsimp only
  obtain ⟨t, ht⟩ := termLoop_foldl_ok j pp (HessianMatrix.iq j)
    (j.zeroAD (j.jb_finalizeTL (if HessianMatrix.iq j = 1 then pp.head? else none) dx 0))
    (enrollProcessor [] (j.jb_initializeAD 0 (j.jb_multiplyBinv
      (j.jb_finalizeTL (if HessianMatrix.iq j = 1 then pp.head? else none) dx 0) 0)).2)
    ([Call.jb_initializeTL] ++ (List.range j.nterms).map Call.setupTL ++ [Call.runTLM] ++
      [Call.jb_finalizeTL, Call.jb_multiplyBinv, Call.jb_initializeAD, Call.zeroAD])
    j.nterms hlen
  unfold termLoop
  rw [ht]
  exact ⟨_, _, rfl⟩

/-- A returning call of `multiply`: its part before the adjoint integration got through,
the adjoint integration returned, and the log is the complete one. -/
theorem multiply_ok_inv {K : Type} [AddCommMonoid X] [AddCommMonoid K]
    (dotX : X → X → K) (dotY : Y → Y → K) (j : CostFunction X Y P E)
    (self : HessianMatrix) (dx dz : X) (r : Multiplied X Y K)
    (h : (HessianMatrix.multiply dotX dotY j self dx dz).result = Except.ok r) :
    ∃ c fw, HessianMatrix.forward j dx = (c, Except.ok fw) ∧
      j.runADJ fw.dw fw.costad = Except.ok r.dw ∧
      (HessianMatrix.multiply dotX dotY j self dx dz).calls
        = multiplyCalls (HessianMatrix.iq j) j.nterms ∧
      r.dz = fw.dz + r.dw ∧ r.ww = fw.ww ∧ r.zz = fw.zz ∧
      r.self = { test_ := self.test_, iter_ := self.iter_ + 1 } ∧
      r.report = (if self.test_ then
          some { iteration := self.iter_ + 1, adj_tst_fwd := dualDot dotY fw.ww fw.zz,
                 adj_tst_bwd := dotX dx r.dw }
        else none) := by
  rw [multiply_eq_forward] at h ⊢
  rcases hF : HessianMatrix.forward j dx with ⟨c, _ | fw⟩
  · rw [hF] at h; simp at h
  · rw [hF] at h
    dsimp only at h ⊢
    cases hA : j.runADJ fw.dw fw.costad with
    | error e => rw [hA] at h; simp at h
    | ok dw =>
      rw [hA] at h
      simp only [Except.ok.injEq] at h
      subst h
      obtain ⟨_, hc, _⟩ := forward_ok_inv j dx c fw hF
      refine ⟨c, fw, rfl, hA, ?_, rfl, rfl, rfl, rfl, rfl⟩
      simp only [hc, multiplyCalls]

theorem multiplyAll_iter {K : Type} [AddCommMonoid X] [AddCommMonoid K]
    (dotX : X → X → K) (dotY : Y → Y → K) (j : CostFunction X Y P E)
    (inputs : List (X × X)) (self op : HessianMatrix)
    (h : HessianMatrix.multiplyAll dotX dotY j self inputs = some op) :
    op.iter_ = self.iter_ + inputs.length ∧ op.test_ = self.test_ := by
  induction inputs generalizing self with
  | nil =>
    simp only [HessianMatrix.multiplyAll, Option.some.injEq] at h
    subst h
    simp
  | cons a rest ih =>
    obtain ⟨dx, dz⟩ := a
    simp only [HessianMatrix.multiplyAll] at h
    cases hr : (HessianMatrix.multiply dotX dotY j self dx dz).result with
    | error f => rw [hr] at h; simp at h
    | ok r =>
      rw [hr] at h
      obtain ⟨_, _, _, _, _, _, _, _, hself, _⟩ := multiply_ok_inv dotX dotY j self dx dz r hr
      obtain ⟨h1, h2⟩ := ih r.self h
      rw [h1, h2, hself]
      simp only [List.length_cons, Nat.cast_add, Nat.cast_one]
      constructor
      · ring
      · trivial

theorem count_multiplyCalls_runTLM (iq n : Nat) :
    (multiplyCalls iq n).count Call.runTLM = 1 := by
  simp [multiplyCalls, List.count_append, List.count_cons,
    count_setupTL_other n Call.runTLM (fun _ h => by cases h),
    count_termCalls_other iq n Call.runTLM (fun _ h => by cases h) (fun _ h => by cases h)
      (fun _ h => by cases h)]

theorem count_multiplyCalls_runADJ (iq n : Nat) :
    (multiplyCalls iq n).count Call.runADJ = 1 := by
  simp [multiplyCalls, List.count_append, List.count_cons,
    count_setupTL_other n Call.runADJ (fun _ h => by cases h),
    count_termCalls_other iq n Call.runADJ (fun _ h => by cases h) (fun _ h => by cases h)
      (fun _ h => by cases h)]

theorem forward_error_calls [AddCommMonoid X] (j : CostFunction X Y P E) (dx : X)
    (c : List Call) (f : Failure E)
    (h : HessianMatrix.forward j dx = (c, Except.error f)) :
    c = [Call.jb_initializeTL] ++ (List.range j.nterms).map Call.setupTL ++ [Call.runTLM] ∨
    c = [Call.jb_initializeTL] ++ (List.range j.nterms).map Call.setupTL ++ [Call.runTLM] ++
      [Call.jb_finalizeTL, Call.jb_multiplyBinv, Call.jb_initializeAD, Call.zeroAD] := by
  unfold HessianMatrix.forward at h
  cases hT : j.runTLM dx (HessianMatrix.costtl j dx) with
  | error e =>
    rw [hT] at h
    simp only [Prod.mk.injEq] at h
    exact Or.inl h.1.symm
  | ok r =>
    obtain ⟨mdx, ctl⟩ := r
    rw [hT] at h
    dsimp only at h
    split at h
    · simp only [Prod.mk.injEq] at h
      exact Or.inr h.1.symm
    · simp at h

/-- The integrations in the log of any call of `multiply`: the tangent-linear one once,
the adjoint one at most once. -/
theorem multiply_calls_counts {K : Type} [AddCommMonoid X] [AddCommMonoid K]
    (dotX : X → X → K) (dotY : Y → Y → K) (j : CostFunction X Y P E)
    (self : HessianMatrix) (dx dz : X) :
    (HessianMatrix.multiply dotX dotY j self dx dz).calls.count Call.runTLM = 1 ∧
    (HessianMatrix.multiply dotX dotY j self dx dz).calls.count Call.runADJ ≤ 1 := by
  have hT0 := count_setupTL_other j.nterms Call.runTLM (fun _ h => by cases h)
  have hA0 := count_setupTL_other j.nterms Call.runADJ (fun _ h => by cases h)
  have hT1 := count_termCalls_other (HessianMatrix.iq j) j.nterms Call.runTLM
    (fun _ h => by cases h) (fun _ h => by cases h) (fun _ h => by cases h)
  have hA1 := count_termCalls_other (HessianMatrix.iq j) j.nterms Call.runADJ
    (fun _ h => by cases h) (fun _ h => by cases h) (fun _ h => by cases h)
  rw [multiply_eq_forward]
  rcases hF : HessianMatrix.forward j dx with ⟨c, f | fw⟩
  · dsimp only
    rcases forward_error_calls j dx c f hF with hc | hc <;> subst hc <;>
      simp [List.count_append, List.count_cons, hT0, hA0]
  · dsimp only
    obtain ⟨_, hc, _⟩ := forward_ok_inv j dx c fw hF
    subst hc
    cases hA : j.runADJ fw.dw fw.costad <;>
      simp [List.count_append, List.count_cons, hT0, hA0, hT1, hA1]

end MultiplyLemmas

/-! ### Claims about `HessianMatrix::multiply` -/

/-- C1: over collaborators given as maps `H_j`, `H_jᵗ`, `R_j⁻¹`, `B⁻¹`, every call
`multiply(dx, dz)` returns and leaves `dz = B⁻¹·dx + Σ_j H_jᵗ R_j⁻¹ H_j·dx`; with identity
tangent-linear and adjoint operators and diagonal `B` and `R_j`, component `i` of `dz` is
`(1/B_i + Σ_j 1/R_j,i)·dx_i`. -/
theorem C1_multiply_computes_hessian :
    (∀ (X Y K : Type) [AddCommMonoid X] [Zero Y] [AddCommMonoid K]
        (dotX : X → X → K) (dotY : Y → Y → K) (jq : Bool) (Binv : X → X) (n : Nat)
        (term : Nat → LinearTerm X Y) (self : HessianMatrix) (dx dz : X),
        (HessianMatrix.multiply dotX dotY (linearCost jq Binv n term) self dx dz).dz?
          = some (Binv dx +
              ∑ jj ∈ Finset.range n, (term jj).Ht ((term jj).Rinv ((term jj).H dx)))) ∧
    (∀ (ι K : Type) [Field K]
        (dotX dotY : (ι → K) → (ι → K) → K) (jq : Bool) (B : ι → K) (n : Nat) (R : Nat → ι → K)
        (self : HessianMatrix) (dx dz : ι → K),
        ∃ out, (HessianMatrix.multiply dotX dotY
            (linearCost jq (diagonalBinv B) n (fun jj => diagonalTerm (R jj))) self dx dz).dz?
              = some out ∧
          ∀ i, out i = (1 / B i + ∑ jj ∈ Finset.range n, 1 / R jj i) * dx i) := by
  refine ⟨?_, ?_⟩
  · intro X Y K _ _ _ dotX dotY jq Binv n term self dx dz
    exact multiply_linearCost_dz dotX dotY jq Binv n term self dx dz
  · intro ι K _ dotX dotY jq B n R self dx dz
    refine ⟨_, multiply_linearCost_dz dotX dotY jq _ n _ self dx dz, ?_⟩
    intro i
    simp only [Pi.add_apply, Finset.sum_apply, diagonalBinv, diagonalTerm, add_mul,
      Finset.sum_mul]

/-- C2: when every term's adjoint operator is the exact adjoint of its tangent-linear
operator and `B⁻¹` and every `R_j⁻¹` are symmetric for the inner products, the operator
`A` applied by `multiply` satisfies `⟨dx, A·dy⟩ = ⟨A·dx, dy⟩` for all `dx`, `dy`, so that
the relative mismatch is below every positive tolerance. -/
theorem C2_multiply_adjoint_consistent {X Y K : Type} [AddCommMonoid X] [AddCommMonoid Y]
    [LinearOrderedField K] (dotX : X → X → K) (dotY : Y → Y → K)
    (jq : Bool) (Binv : X → X) (n : Nat) (term : Nat → LinearTerm X Y)
    (hX : IsDotProduct dotX) (hY : IsDotProduct dotY)
    (hB : ∀ x y, dotX x (Binv y) = dotX (Binv x) y)
    (hR : ∀ jj, jj < n → ∀ y z, dotY y ((term jj).Rinv z) = dotY ((term jj).Rinv y) z)
    (hAdj : ∀ jj, jj < n → ∀ x y, dotX x ((term jj).Ht y) = dotY ((term jj).H x) y)
    (self₁ self₂ : HessianMatrix) (dx dy dz₁ dz₂ : X) :
    ∃ Adx Ady : X,
      (HessianMatrix.multiply dotX dotY (linearCost jq Binv n term) self₁ dx dz₁).dz? = some Adx ∧
      (HessianMatrix.multiply dotX dotY (linearCost jq Binv n term) self₂ dy dz₂).dz? = some Ady ∧
      dotX dx Ady = dotX Adx dy ∧
      ∀ tol : K, 0 < tol → |dotX dx Ady - dotX Adx dy| / |dotX dx Ady| < tol := by
  have key : dotX dx (Binv dy +
        ∑ jj ∈ Finset.range n, (term jj).Ht ((term jj).Rinv ((term jj).H dy)))
      = dotX (Binv dx +
        ∑ jj ∈ Finset.range n, (term jj).Ht ((term jj).Rinv ((term jj).H dx))) dy := by
    rw [hX.add_right, hX.symm _ dy, hX.add_right, hX.sum_right, hX.sum_right,
      hX.symm dy (Binv dx), hB dx dy]
    congr 1
    refine Finset.sum_congr rfl (fun jj hjj => ?_)
    have hlt : jj < n := Finset.mem_range.mp hjj
    rw [hAdj jj hlt, hAdj jj hlt, hR jj hlt, hY.symm]
  refine ⟨_, _, multiply_linearCost_dz dotX dotY jq Binv n term self₁ dx dz₁,
    multiply_linearCost_dz dotX dotY jq Binv n term self₂ dy dz₂, key, ?_⟩
  intro tol htol
  rw [key, sub_self, abs_zero, zero_div]
  exact htol

/-- Witness of C2: rational scalars, one term `H = Hᵗ = 3·`, `R⁻¹ = 5·`, `B⁻¹ = 2·`. -/
theorem C2_multiply_adjoint_consistent_witness :
    ∃ Adx Ady : ℚ,
      (HessianMatrix.multiply (fun a b : ℚ => a * b) (fun a b : ℚ => a * b)
        (linearCost true (fun x => 2 * x) 1 (fun _ => ⟨fun x => 3 * x, fun y => 3 * y, fun y => 5 * y⟩))
        (HessianMatrix.new false) 1 0).dz? = some Adx ∧
      (HessianMatrix.multiply (fun a b : ℚ => a * b) (fun a b : ℚ => a * b)
        (linearCost true (fun x => 2 * x) 1 (fun _ => ⟨fun x => 3 * x, fun y => 3 * y, fun y => 5 * y⟩))
        (HessianMatrix.new true) 2 7).dz? = some Ady ∧
      (fun a b : ℚ => a * b) 1 Ady = (fun a b : ℚ => a * b) Adx 2 ∧
      ∀ tol : ℚ, 0 < tol →
        |(fun a b : ℚ => a * b) 1 Ady - (fun a b : ℚ => a * b) Adx 2|
          / |(fun a b : ℚ => a * b) 1 Ady| < tol :=
  C2_multiply_adjoint_consistent (fun a b : ℚ => a * b) (fun a b : ℚ => a * b)
    true (fun x => 2 * x) 1 (fun _ => ⟨fun x => 3 * x, fun y => 3 * y, fun y => 5 * y⟩)
    ⟨fun x y => mul_comm x y, fun x y z => mul_add x y z⟩
    ⟨fun x y => mul_comm x y, fun x y z => mul_add x y z⟩
    (fun x y => by ring) (fun _ _ y z => by ring) (fun _ _ x y => by ring)
    (HessianMatrix.new false) (HessianMatrix.new true) 1 2 0 7

/-- C3: for every cost function whose collaborators are linear maps, `multiply` applied
to the zero control increment returns, whatever `dz` held before, and leaves the zero
increment in `dz`, whose squared norm `⟨dz, dz⟩` is exactly zero. -/
theorem C3_multiply_zero_input {X Y K : Type} [Field K] [AddCommGroup X] [AddCommGroup Y]
    [Module K X] [Module K Y] (dotX : X → X → K) (dotY : Y → Y → K)
    (jq : Bool) (Binv : X → X) (n : Nat) (term : Nat → LinearTerm X Y)
    (hlin : LinearCollaborators K Binv n term) (hX : IsDotProduct dotX)
    (self : HessianMatrix) (dz : X) :
    ∃ out : X,
      (HessianMatrix.multiply dotX dotY (linearCost jq Binv n term) self 0 dz).dz? = some out ∧
      out = 0 ∧ dotX out out = 0 := by
  have hz : Binv 0 + ∑ jj ∈ Finset.range n, (term jj).Ht ((term jj).Rinv ((term jj).H 0))
      = (0 : X) := by
    rw [hlin.1.map_zero, zero_add]
    refine Finset.sum_eq_zero (fun jj hjj => ?_)
    obtain ⟨hH, hHt, hRi⟩ := hlin.2 jj (Finset.mem_range.mp hjj)
    rw [hH.map_zero, hRi.map_zero, hHt.map_zero]
  refine ⟨_, multiply_linearCost_dz dotX dotY jq Binv n term self 0 dz, hz, ?_⟩
  rw [hz]
  exact hX.zero_right 0

/-- Witness of C3: rational scalars, two terms, `dz` holding 7 before the call. -/
theorem C3_multiply_zero_input_witness :
    ∃ out : ℚ,
      (HessianMatrix.multiply (fun a b : ℚ => a * b) (fun a b : ℚ => a * b)
        (linearCost false (fun x => 2 * x) 2 (fun _ => ⟨fun x => 3 * x, fun y => 3 * y, fun y => 5 * y⟩))
        (HessianMatrix.new true) 0 7).dz? = some out ∧
      out = 0 ∧ (fun a b : ℚ => a * b) out out = 0 :=
  C3_multiply_zero_input (fun a b : ℚ => a * b) (fun a b : ℚ => a * b)
    false (fun x => 2 * x) 2 (fun _ => ⟨fun x => 3 * x, fun y => 3 * y, fun y => 5 * y⟩)
    ⟨⟨fun x y => mul_add 2 x y, fun c x => by simp only [smul_eq_mul]; ring⟩,
      fun _ _ => ⟨⟨fun x y => mul_add 3 x y, fun c x => by simp only [smul_eq_mul]; ring⟩,
        ⟨fun x y => mul_add 3 x y, fun c x => by simp only [smul_eq_mul]; ring⟩,
        ⟨fun x y => mul_add 5 x y, fun c x => by simp only [smul_eq_mul]; ring⟩⟩⟩
    ⟨fun x y => mul_comm x y, fun x y z => mul_add x y z⟩
    (HessianMatrix.new true) 7


/-! ### Claims about `Ensemble::linearize` -/

/-- C4: for a freshly constructed ensemble of `R ≥ 2` members whose valid times and
member count agree, and every background `xb`, the two-argument `linearize` returns and
perturbation `jm` is `(member_jm − mean)/√(R−1)`, `mean` being the arithmetic mean of the
`R` members; for 4 members and a zero background it is `(member_jm − mean)/√3`. -/
theorem C4_modeA_perturbations {T G D V K : Type} [DecidableEq T] [Field K]
    [AddCommGroup V] [Module K V] (M : Model T G D V) (sqrt : K → K) (validTime : T)
    (conf : EnsembleConfig D) (xb : State T V) (resol : G)
    (_hR : 2 ≤ conf.rank)
    (hcount : conf.state.length = conf.rank)
    (hxb : xb.validTime = validTime)
    (hmem : ∀ d ∈ conf.state, (M.read resol d).validTime = validTime) :
    (Ensemble.linearize M sqrt (Ensemble.new validTime conf) xb resol).failure = none ∧
    (∀ (jm : Nat) (d : D), conf.state[jm]? = some d →
      (Ensemble.linearize M sqrt (Ensemble.new validTime conf) xb resol).self.ensemblePerturbs_[jm]?
        = some ((1 / sqrt ((conf.rank : K) - 1)) •
            ((M.read resol d).fields - memberMean K M resol conf.rank conf.state))) ∧
    (conf.rank = 4 → xb.fields = 0 → ∀ (jm : Nat) (d : D), conf.state[jm]? = some d →
      (Ensemble.linearize M sqrt (Ensemble.new validTime conf) xb resol).self.ensemblePerturbs_[jm]?
        = some ((1 / sqrt 3) •
            ((M.read resol d).fields - memberMean K M resol 4 conf.state))) := by
  rw [linearize_new M sqrt validTime conf xb resol hcount hxb hmem]
  refine ⟨rfl, ?_, ?_⟩
  · intro jm d hd
    simp only [List.getElem?_map, hd, Option.map_some']
  · intro h4 _ jm d hd
    have h3 : ((4 : Nat) : K) - 1 = 3 := by norm_num
    simp only [List.getElem?_map, hd, Option.map_some', h4, h3]

/-- Witness of C4: four real members 1, 2, 3, 6 valid at time 7 and a zero background. -/
theorem C4_modeA_perturbations_witness :
    (Ensemble.linearize (⟨fun _ x => x, fun _ d => ⟨7, d⟩⟩ : Model Nat Unit ℝ ℝ) Real.sqrt
        (Ensemble.new 7 ⟨4, [1, 2, 3, 6]⟩) ⟨7, 0⟩ ()).failure = none ∧
    (∀ (jm : Nat) (d : ℝ), ([1, 2, 3, 6] : List ℝ)[jm]? = some d →
      (Ensemble.linearize (⟨fun _ x => x, fun _ d => ⟨7, d⟩⟩ : Model Nat Unit ℝ ℝ) Real.sqrt
        (Ensemble.new 7 ⟨4, [1, 2, 3, 6]⟩) ⟨7, 0⟩ ()).self.ensemblePerturbs_[jm]?
        = some ((1 / Real.sqrt (((4 : Nat) : ℝ) - 1)) •
            (d - memberMean ℝ (⟨fun _ x => x, fun _ d => ⟨7, d⟩⟩ : Model Nat Unit ℝ ℝ) () 4
              [1, 2, 3, 6]))) ∧
    ((4 : Nat) = 4 → (0 : ℝ) = 0 → ∀ (jm : Nat) (d : ℝ), ([1, 2, 3, 6] : List ℝ)[jm]? = some d →
      (Ensemble.linearize (⟨fun _ x => x, fun _ d => ⟨7, d⟩⟩ : Model Nat Unit ℝ ℝ) Real.sqrt
        (Ensemble.new 7 ⟨4, [1, 2, 3, 6]⟩) ⟨7, 0⟩ ()).self.ensemblePerturbs_[jm]?
        = some ((1 / Real.sqrt 3) •
            (d - memberMean ℝ (⟨fun _ x => x, fun _ d => ⟨7, d⟩⟩ : Model Nat Unit ℝ ℝ) () 4
              [1, 2, 3, 6]))) :=
  C4_modeA_perturbations (⟨fun _ x => x, fun _ d => ⟨7, d⟩⟩ : Model Nat Unit ℝ ℝ) Real.sqrt 7
    ⟨4, [1, 2, 3, 6]⟩ ⟨7, 0⟩ () (by decide) (by decide) rfl (fun _ _ => rfl)

/-- C5: for a freshly constructed ensemble of `R ≥ 2` members whose valid times and
member count agree, and every balance operator with inverse `Kinv`, the three-argument
`linearize` returns and perturbation `jm` is `Kinv(member_jm − mean)/√(R−1)`, with
`mean = (1/R)·Σ members`; the perturbations are the same for every background of the
configured valid time. -/
theorem C5_modeB_perturbations {T G D V K : Type} [DecidableEq T] [Field K]
    [AddCommGroup V] [Module K V] (M : Model T G D V) (sqrt : K → K) (validTime : T)
    (conf : EnsembleConfig D) (xb : State T V) (resol : G) (Kinv : V → V)
    (_hR : 2 ≤ conf.rank)
    (hcount : conf.state.length = conf.rank)
    (hxb : xb.validTime = validTime)
    (hmem : ∀ d ∈ conf.state, (M.read resol d).validTime = validTime) :
    (Ensemble.linearizeBalanced M sqrt (Ensemble.new validTime conf) xb resol Kinv).failure
      = none ∧
    (∀ (jm : Nat) (d : D), conf.state[jm]? = some d →
      (Ensemble.linearizeBalanced M sqrt (Ensemble.new validTime conf) xb resol
          Kinv).self.ensemblePerturbs_[jm]?
        = some ((1 / sqrt ((conf.rank : K) - 1)) •
            Kinv ((M.read resol d).fields - memberMean K M resol conf.rank conf.state))) ∧
    (∀ xb2 : State T V, xb2.validTime = validTime →
      (Ensemble.linearizeBalanced M sqrt (Ensemble.new validTime conf) xb2 resol
          Kinv).self.ensemblePerturbs_
        = (Ensemble.linearizeBalanced M sqrt (Ensemble.new validTime conf) xb resol
          Kinv).self.ensemblePerturbs_) := by
  rw [linearizeBalanced_new M sqrt validTime conf xb resol Kinv hcount hxb hmem]
  refine ⟨rfl, ?_, ?_⟩
  · intro jm d hd
    simp only [List.getElem?_map, hd, Option.map_some']
  · intro xb2 hxb2
    rw [linearizeBalanced_new M sqrt validTime conf xb2 resol Kinv hcount hxb2 hmem]

/-- Witness of C5: three real members 1, 2, 6 valid at time 7, background 10, and the
balance operator that doubles (its inverse halves). -/
theorem C5_modeB_perturbations_witness :
    (Ensemble.linearizeBalanced (⟨fun _ x => x, fun _ d => ⟨7, d⟩⟩ : Model Nat Unit ℝ ℝ)
        Real.sqrt (Ensemble.new 7 ⟨3, [1, 2, 6]⟩) ⟨7, 10⟩ () (fun v => v / 2)).failure = none ∧
    (∀ (jm : Nat) (d : ℝ), ([1, 2, 6] : List ℝ)[jm]? = some d →
      (Ensemble.linearizeBalanced (⟨fun _ x => x, fun _ d => ⟨7, d⟩⟩ : Model Nat Unit ℝ ℝ)
        Real.sqrt (Ensemble.new 7 ⟨3, [1, 2, 6]⟩) ⟨7, 10⟩ ()
          (fun v => v / 2)).self.ensemblePerturbs_[jm]?
        = some ((1 / Real.sqrt (((3 : Nat) : ℝ) - 1)) •
            ((fun v : ℝ => v / 2)
              (d - memberMean ℝ (⟨fun _ x => x, fun _ d => ⟨7, d⟩⟩ : Model Nat Unit ℝ ℝ) () 3
                [1, 2, 6])))) ∧
    (∀ xb2 : State Nat ℝ, xb2.validTime = 7 →
      (Ensemble.linearizeBalanced (⟨fun _ x => x, fun _ d => ⟨7, d⟩⟩ : Model Nat Unit ℝ ℝ)
        Real.sqrt (Ensemble.new 7 ⟨3, [1, 2, 6]⟩) xb2 () (fun v => v / 2)).self.ensemblePerturbs_
        = (Ensemble.linearizeBalanced (⟨fun _ x => x, fun _ d => ⟨7, d⟩⟩ : Model Nat Unit ℝ ℝ)
        Real.sqrt (Ensemble.new 7 ⟨3, [1, 2, 6]⟩) ⟨7, 10⟩ ()
          (fun v => v / 2)).self.ensemblePerturbs_) :=
  C5_modeB_perturbations (⟨fun _ x => x, fun _ d => ⟨7, d⟩⟩ : Model Nat Unit ℝ ℝ) Real.sqrt 7
    ⟨3, [1, 2, 6]⟩ ⟨7, 10⟩ () (fun v => v / 2) (by decide) (by decide) rfl (fun _ _ => rfl)

/-- C6: over the reals with the real square root, for a freshly constructed ensemble of
`R ≥ 2` members whose valid times and member count agree, the perturbations `p_j` of the
two-argument `linearize` satisfy
`Σ_j ⟨p_j, p_j⟩ = (1/(R−1))·Σ_j ⟨member_j − mean, member_j − mean⟩`. -/
theorem C6_modeA_covariance_trace {T G D V : Type} [DecidableEq T]
    [NormedAddCommGroup V] [InnerProductSpace ℝ V] (M : Model T G D V) (validTime : T)
    (conf : EnsembleConfig D) (xb : State T V) (resol : G)
    (hR : 2 ≤ conf.rank)
    (hcount : conf.state.length = conf.rank)
    (hxb : xb.validTime = validTime)
    (hmem : ∀ d ∈ conf.state, (M.read resol d).validTime = validTime) :
    (((Ensemble.linearize M Real.sqrt (Ensemble.new validTime conf) xb
        resol).self.ensemblePerturbs_).map (fun p => (inner p p : ℝ))).sum
      = (1 / ((conf.rank : ℝ) - 1)) *
          (conf.state.map (fun d => (inner
            ((M.read resol d).fields - memberMean ℝ M resol conf.rank conf.state)
            ((M.read resol d).fields - memberMean ℝ M resol conf.rank conf.state) : ℝ))).sum := by
  rw [linearize_new M Real.sqrt validTime conf xb resol hcount hxb hmem]
  have hpos : (0 : ℝ) ≤ (conf.rank : ℝ) - 1 := by
    have h2 : (2 : ℝ) ≤ (conf.rank : ℝ) := by exact_mod_cast hR
    linarith
  have hrk : (1 / Real.sqrt ((conf.rank : ℝ) - 1)) * (1 / Real.sqrt ((conf.rank : ℝ) - 1))
      = 1 / ((conf.rank : ℝ) - 1) := by
    rw [div_mul_div_comm, one_mul, Real.mul_self_sqrt hpos]
  simp only [List.map_map]
  rw [← List.sum_map_mul_left]
  congr 1
  apply List.map_congr_left
  intro d _
  simp only [Function.comp_apply, real_inner_smul_left, real_inner_smul_right]
  rw [← mul_assoc, hrk]

/-- Witness of C6: two real members 1 and 3 valid at time 7, background 10. -/
theorem C6_modeA_covariance_trace_witness :
    (((Ensemble.linearize (⟨fun _ x => x, fun _ d => ⟨7, d⟩⟩ : Model Nat Unit ℝ ℝ) Real.sqrt
        (Ensemble.new 7 ⟨2, [1, 3]⟩) ⟨7, 10⟩ ()).self.ensemblePerturbs_).map
          (fun p => (inner p p : ℝ))).sum
      = (1 / (((EnsembleConfig.rank (⟨2, [1, 3]⟩ : EnsembleConfig ℝ) : Nat) : ℝ) - 1)) *
          (([1, 3] : List ℝ).map (fun d => (inner
            (d - memberMean ℝ (⟨fun _ x => x, fun _ d => ⟨7, d⟩⟩ : Model Nat Unit ℝ ℝ) ()
              (EnsembleConfig.rank (⟨2, [1, 3]⟩ : EnsembleConfig ℝ)) [1, 3])
            (d - memberMean ℝ (⟨fun _ x => x, fun _ d => ⟨7, d⟩⟩ : Model Nat Unit ℝ ℝ) ()
              (EnsembleConfig.rank (⟨2, [1, 3]⟩ : EnsembleConfig ℝ)) [1, 3]) : ℝ))).sum :=
  C6_modeA_covariance_trace (⟨fun _ x => x, fun _ d => ⟨7, d⟩⟩ : Model Nat Unit ℝ ℝ) 7
    ⟨2, [1, 3]⟩ ⟨7, 10⟩ () (by decide) (by decide) rfl (fun _ _ => rfl)

/-- C7: in both modes `linearize` fails exactly when one of its checks is violated: the
background's valid time differs from the configured one, or the number of member
descriptors differs from the member count, or a member read from the configuration has
another valid time than the configured one; otherwise it returns. -/
theorem C7_linearize_fails_iff {T G D V K : Type} [DecidableEq T] [Field K]
    [AddCommGroup V] [Module K V] (M : Model T G D V) (sqrt : K → K)
    (self : Ensemble T G D V) (xb : State T V) (resol : G) (Kinv : V → V) :
    ((Ensemble.linearize M sqrt self xb resol).failure ≠ none ↔
      (xb.validTime ≠ self.validTime_ ∨ self.config_.state.length ≠ self.rank_ ∨
        ∃ d ∈ self.config_.state, (M.read resol d).validTime ≠ self.validTime_)) ∧
    ((Ensemble.linearizeBalanced M sqrt self xb resol Kinv).failure ≠ none ↔
      (xb.validTime ≠ self.validTime_ ∨ self.config_.state.length ≠ self.rank_ ∨
        ∃ d ∈ self.config_.state, (M.read resol d).validTime ≠ self.validTime_)) := by
  constructor
  · rw [Ne, linearize_failure_none_iff]
    simp only [not_and_or, not_forall, exists_prop, Ne]
  · rw [Ne, linearizeBalanced_failure_none_iff]
    simp only [not_and_or, not_forall, exists_prop, Ne]

/-- C8: in both modes, when the number of member descriptors in the configuration
differs from the member count `rank_`, `linearize` fails and has read no member. -/
theorem C8_linearize_member_count {T G D V K : Type} [DecidableEq T] [Field K]
    [AddCommGroup V] [Module K V] (M : Model T G D V) (sqrt : K → K)
    (self : Ensemble T G D V) (xb : State T V) (resol : G) (Kinv : V → V)
    (hcount : self.config_.state.length ≠ self.rank_) :
    ((Ensemble.linearize M sqrt self xb resol).failure ≠ none ∧
      (Ensemble.linearize M sqrt self xb resol).reads = []) ∧
    ((Ensemble.linearizeBalanced M sqrt self xb resol Kinv).failure ≠ none ∧
      (Ensemble.linearizeBalanced M sqrt self xb resol Kinv).reads = []) := by
  unfold Ensemble.linearize Ensemble.linearizeBalanced
  by_cases h1 : xb.validTime = self.validTime_ <;> simp [h1, hcount]

/-- Witness of C8: three members configured, two descriptors supplied. -/
theorem C8_linearize_member_count_witness :
    ((Ensemble.linearize (⟨fun _ x => x, fun _ d => ⟨7, d⟩⟩ : Model Nat Unit ℚ ℚ) (fun x : ℚ => x)
        (Ensemble.new 7 ⟨3, [1, 2]⟩) ⟨7, 0⟩ ()).failure ≠ none ∧
      (Ensemble.linearize (⟨fun _ x => x, fun _ d => ⟨7, d⟩⟩ : Model Nat Unit ℚ ℚ) (fun x : ℚ => x)
        (Ensemble.new 7 ⟨3, [1, 2]⟩) ⟨7, 0⟩ ()).reads = []) ∧
    ((Ensemble.linearizeBalanced (⟨fun _ x => x, fun _ d => ⟨7, d⟩⟩ : Model Nat Unit ℚ ℚ)
        (fun x : ℚ => x) (Ensemble.new 7 ⟨3, [1, 2]⟩) ⟨7, 0⟩ () (fun v => v)).failure ≠ none ∧
      (Ensemble.linearizeBalanced (⟨fun _ x => x, fun _ d => ⟨7, d⟩⟩ : Model Nat Unit ℚ ℚ)
        (fun x : ℚ => x) (Ensemble.new 7 ⟨3, [1, 2]⟩) ⟨7, 0⟩ () (fun v => v)).reads = []) :=
  C8_linearize_member_count (⟨fun _ x => x, fun _ d => ⟨7, d⟩⟩ : Model Nat Unit ℚ ℚ)
    (fun x : ℚ => x) (Ensemble.new 7 ⟨3, [1, 2]⟩) ⟨7, 0⟩ () (fun v => v) (by decide)

/-! ### Claims about `SaddlePointMinimizer::doMinimize` -/

/-- C9 (evaluation at the diverging input): with `ninner = 10` and
`gradient_norm_reduction = 1/1000` the solver is called with iteration cap 10 and with
reduction target 0, not 1/1000, whatever the solver and the cost function. -/
theorem C9_reduction_target_truncated
    (GMRESR : SaddlePointVector ℚ ℚ → SaddlePointVector ℚ ℚ → Int → ℚ →
      SaddlePointVector ℚ ℚ × ℚ) (J : MinimizerCost ℚ ℚ) :
    (SaddlePointMinimizer.doMinimize GMRESR J ⟨10, 1 / 1000⟩).maxiter = 10 ∧
    (SaddlePointMinimizer.doMinimize GMRESR J ⟨10, 1 / 1000⟩).tolerance = 0 ∧
    (SaddlePointMinimizer.doMinimize GMRESR J ⟨10, 1 / 1000⟩).tolerance ≠ 1 / 1000 := by
  have hfloor : ⌊(1 / 1000 : ℚ)⌋ = 0 := by
    rw [Int.floor_eq_zero_iff]
    constructor <;> norm_num
  have hnn : (0 : ℚ) ≤ 1 / 1000 := by norm_num
  simp only [SaddlePointMinimizer.doMinimize, doubleToInt, hnn, if_true, hfloor, Int.cast_zero]
  norm_num

/-- C10: whatever final iterate and reduction factor the solver returns for the call
`doMinimize` makes, `doMinimize` returns the primal component of that final iterate (and
reports that reduction factor). -/
theorem C10_returns_primal_component {X Y K : Type} [LinearOrderedField K] [FloorRing K]
    [AddCommGroup X] [Module K X] [AddCommGroup Y] [Module K Y]
    (GMRESR : SaddlePointVector X Y → SaddlePointVector X Y → Int → K →
      SaddlePointVector X Y × K)
    (J : MinimizerCost X Y) (config : MinimizerConfig K)
    (xfinal : SaddlePointVector X Y) (reduc : K)
    (hsolve : GMRESR (SaddlePointMinimizer.doMinimize GMRESR J config).unknown
        (SaddlePointMinimizer.doMinimize GMRESR J config).rhs
        (SaddlePointMinimizer.doMinimize GMRESR J config).maxiter
        (SaddlePointMinimizer.doMinimize GMRESR J config).tolerance = (xfinal, reduc)) :
    (SaddlePointMinimizer.doMinimize GMRESR J config).dx = xfinal.dx ∧
    (SaddlePointMinimizer.doMinimize GMRESR J config).reported = reduc := by
  simp only [SaddlePointMinimizer.doMinimize] at hsolve ⊢
  rw [hsolve]
  exact ⟨rfl, rfl⟩

/-- Witness of C10: a solver that stops at the iterate with primal component 42 and
reports the reduction factor 2 (no convergence). -/
theorem C10_returns_primal_component_witness :
    (SaddlePointMinimizer.doMinimize
        (fun (x : SaddlePointVector ℚ ℚ) _ _ _ => ({ x with dx := 42 }, (2 : ℚ)))
        ⟨2, 5, fun _ => 0, fun jj => jj + 1, fun _ y => 3 * y⟩ ⟨10, 1 / 1000⟩).dx
      = (42 : ℚ) ∧
    (SaddlePointMinimizer.doMinimize
        (fun (x : SaddlePointVector ℚ ℚ) _ _ _ => ({ x with dx := 42 }, (2 : ℚ)))
        ⟨2, 5, fun _ => 0, fun jj => jj + 1, fun _ y => 3 * y⟩ ⟨10, 1 / 1000⟩).reported
      = 2 :=
  C10_returns_primal_component
    (fun (x : SaddlePointVector ℚ ℚ) _ _ _ => ({ x with dx := 42 }, (2 : ℚ)))
    ⟨2, 5, fun _ => 0, fun jj => jj + 1, fun _ y => 3 * y⟩ ⟨10, 1 / 1000⟩
    { dx := 42, lambda := { dx := some 0, entries := [0, 0] } } 2 rfl

theorem foldl_append_entries {X Y : Type} (f : Nat → Y) (n : Nat) (m : Multipliers X Y) :
    (List.range n).foldl (fun m jj => { m with entries := m.entries ++ [f jj] }) m
      = { m with entries := m.entries ++ (List.range n).map f } := by
  induction n with
  | zero => simp
  | succ n ih => rw [List.range_succ, List.foldl_append, ih]; simp

/-- C11: the right-hand side handed to the solver is the negated gradient at the first
guess: its multipliers hold `−(first guess of Jb)` as control increment and, in term
order, the entries `−multiplyCovar_jj(newGradientFG_jj)` for `jj < nterms`; its primal
component is a zero increment. -/
theorem C11_rhs_is_negated_gradient {X Y K : Type} [LinearOrderedField K] [FloorRing K]
    [AddCommGroup X] [Module K X] [AddCommGroup Y] [Module K Y]
    (GMRESR : SaddlePointVector X Y → SaddlePointVector X Y → Int → K →
      SaddlePointVector X Y × K)
    (J : MinimizerCost X Y) (config : MinimizerConfig K) :
    (SaddlePointMinimizer.doMinimize GMRESR J config).rhs.dx = 0 ∧
    (SaddlePointMinimizer.doMinimize GMRESR J config).rhs.lambda.dx
      = some (-J.getFirstGuess) ∧
    (SaddlePointMinimizer.doMinimize GMRESR J config).rhs.lambda.entries
      = (List.range J.nterms).map (fun jj => -J.multiplyCovar jj (J.newGradientFG jj)) ∧
    (∀ jj, jj < J.nterms →
      (SaddlePointMinimizer.doMinimize GMRESR J config).rhs.lambda.entries[jj]?
        = some (-J.multiplyCovar jj (J.newGradientFG jj))) := by
  have hentries : (SaddlePointMinimizer.doMinimize GMRESR J config).rhs.lambda.entries
      = (List.range J.nterms).map (fun jj => -J.multiplyCovar jj (J.newGradientFG jj)) := by
    simp only [SaddlePointMinimizer.doMinimize, SaddlePointVector.scale, foldl_append_entries,
      List.nil_append, List.map_map, neg_smul, one_smul]
    rfl
  refine ⟨?_, ?_, hentries, ?_⟩
  · simp [SaddlePointMinimizer.doMinimize, SaddlePointVector.scale]
  · simp [SaddlePointMinimizer.doMinimize, SaddlePointVector.scale, foldl_append_entries]
  · intro jj hjj
    rw [hentries]
    simp [hjj]

/-- C12: the unknown handed to the solver has a zero primal increment and multipliers
with exactly `nterms` entries, entry `jj` being `newDualVector` of term `jj`; the
right-hand side has the same number of entries, and both hold a control increment in
their multipliers. -/
theorem C12_unknown_structure {X Y K : Type} [LinearOrderedField K] [FloorRing K]
    [AddCommGroup X] [Module K X] [AddCommGroup Y] [Module K Y]
    (GMRESR : SaddlePointVector X Y → SaddlePointVector X Y → Int → K →
      SaddlePointVector X Y × K)
    (J : MinimizerCost X Y) (config : MinimizerConfig K) :
    (SaddlePointMinimizer.doMinimize GMRESR J config).unknown.dx = 0 ∧
    (SaddlePointMinimizer.doMinimize GMRESR J config).unknown.lambda.dx = some 0 ∧
    (SaddlePointMinimizer.doMinimize GMRESR J config).unknown.lambda.entries
      = (List.range J.nterms).map J.newDualVector ∧
    (SaddlePointMinimizer.doMinimize GMRESR J config).unknown.lambda.entries.length
      = J.nterms ∧
    (SaddlePointMinimizer.doMinimize GMRESR J config).rhs.lambda.entries.length
      = (SaddlePointMinimizer.doMinimize GMRESR J config).unknown.lambda.entries.length ∧
    ((SaddlePointMinimizer.doMinimize GMRESR J config).rhs.lambda.dx.isSome
      = (SaddlePointMinimizer.doMinimize GMRESR J config).unknown.lambda.dx.isSome) := by
  simp [SaddlePointMinimizer.doMinimize, SaddlePointVector.scale, foldl_append_entries]

/-- C13: the value `doMinimize` writes to the test channel after "reduction in residual
norm = " is the reduction factor returned by the solver call of that invocation, written
with precision 4, and afterwards the precision of the channel is what it was before. -/
theorem C13_reported_reduction {X Y K : Type} [LinearOrderedField K] [FloorRing K]
    [AddCommGroup X] [Module K X] [AddCommGroup Y] [Module K Y]
    (GMRESR : SaddlePointVector X Y → SaddlePointVector X Y → Int → K →
      SaddlePointVector X Y × K)
    (J : MinimizerCost X Y) (config : MinimizerConfig K) (test : LogChannel K) :
    (SaddlePointMinimizer.doMinimizeTest GMRESR J config test).written
      = test.written ++
        [LogItem.text "SaddlePointMinimizer: reduction in residual norm = ",
         LogItem.number 4
           (GMRESR (SaddlePointMinimizer.doMinimize GMRESR J config).unknown
             (SaddlePointMinimizer.doMinimize GMRESR J config).rhs
             (SaddlePointMinimizer.doMinimize GMRESR J config).maxiter
             (SaddlePointMinimizer.doMinimize GMRESR J config).tolerance).2,
         LogItem.endl] ∧
    (SaddlePointMinimizer.doMinimizeTest GMRESR J config test).precision = test.precision := by
  simp [SaddlePointMinimizer.doMinimizeTest, SaddlePointMinimizer.doMinimize, LogChannel.put,
    LogChannel.putNumber, LogChannel.setprecision]

/-! ### Further claims about `HessianMatrix::multiply` -/

/-- C14: every returning call of `multiply` runs the tangent-linear integration exactly
once and the adjoint integration exactly once, the tangent-linear one first, and raises
the call counter by exactly one; after `k` returning calls (`k` within the range of
`int`) on a freshly constructed operator the counter is `k`. -/
theorem C14_one_TL_one_AD_per_call {X Y P E K : Type} [AddCommMonoid X] [AddCommMonoid K]
    (dotX : X → X → K) (dotY : Y → Y → K) (j : CostFunction X Y P E)
    (self : HessianMatrix) (dx dz : X) (r : Multiplied X Y K)
    (h : (HessianMatrix.multiply dotX dotY j self dx dz).result = Except.ok r) :
    (HessianMatrix.multiply dotX dotY j self dx dz).calls.count Call.runTLM = 1 ∧
    (HessianMatrix.multiply dotX dotY j self dx dz).calls.count Call.runADJ = 1 ∧
    (∃ a b c, (HessianMatrix.multiply dotX dotY j self dx dz).calls
        = a ++ [Call.runTLM] ++ b ++ [Call.runADJ] ++ c) ∧
    r.self.iter_ = self.iter_ + 1 ∧
    (∀ (test : Bool) (inputs : List (X × X)) (op : HessianMatrix),
      inputs.length < 2147483648 →
      HessianMatrix.multiplyAll dotX dotY j (HessianMatrix.new test) inputs = some op →
      op.iter_ = inputs.length) := by
  obtain ⟨c, fw, _, _, hcalls, _, _, _, hself, _⟩ := multiply_ok_inv dotX dotY j self dx dz r h
  refine ⟨?_, ?_, ?_, ?_, ?_⟩
  · rw [hcalls]; exact count_multiplyCalls_runTLM _ _
  · rw [hcalls]; exact count_multiplyCalls_runADJ _ _
  · rw [hcalls]
    exact ⟨[Call.jb_initializeTL] ++ (List.range j.nterms).map Call.setupTL,
      [Call.jb_finalizeTL, Call.jb_multiplyBinv, Call.jb_initializeAD, Call.zeroAD] ++
        termCalls (HessianMatrix.iq j) j.nterms,
      [Call.jb_finalizeAD], by simp [multiplyCalls]⟩
  · rw [hself]
  · intro test inputs op _ hall
    have := (multiplyAll_iter dotX dotY j inputs (HessianMatrix.new test) op hall).1
    simpa [HessianMatrix.new] using this

/-- Witness of C14: integer scalars, a background processor and one term `H = Hᵗ = 3·`,
`R⁻¹ = 5·`, `B⁻¹ = 2·`, applied to `dx = 1`. -/
theorem C14_one_TL_one_AD_per_call_witness :
    (HessianMatrix.multiply (fun a b : Int => a * b) (fun a b : Int => a * b)
      (linearCost true (fun x => 2 * x) 1
        (fun _ => ⟨fun x => 3 * x, fun y => 3 * y, fun y => 5 * y⟩))
      (HessianMatrix.new false) 1 0).calls.count Call.runTLM = 1 ∧
    (HessianMatrix.multiply (fun a b : Int => a * b) (fun a b : Int => a * b)
      (linearCost true (fun x => 2 * x) 1
        (fun _ => ⟨fun x => 3 * x, fun y => 3 * y, fun y => 5 * y⟩))
      (HessianMatrix.new false) 1 0).calls.count Call.runADJ = 1 ∧
    (∃ a b c, (HessianMatrix.multiply (fun a b : Int => a * b) (fun a b : Int => a * b)
      (linearCost true (fun x => 2 * x) 1
        (fun _ => ⟨fun x => 3 * x, fun y => 3 * y, fun y => 5 * y⟩))
      (HessianMatrix.new false) 1 0).calls
        = a ++ [Call.runTLM] ++ b ++ [Call.runADJ] ++ c) ∧
    (({ dz := 47, dw := 45, ww := [3], zz := [15], self := { test_ := false, iter_ := 1 },
        report := none } : Multiplied Int Int Int).self.iter_
      = (HessianMatrix.new false).iter_ + 1) ∧
    (∀ (test : Bool) (inputs : List (Int × Int)) (op : HessianMatrix),
      inputs.length < 2147483648 →
      HessianMatrix.multiplyAll (fun a b : Int => a * b) (fun a b : Int => a * b)
        (linearCost true (fun x => 2 * x) 1
          (fun _ => ⟨fun x => 3 * x, fun y => 3 * y, fun y => 5 * y⟩))
        (HessianMatrix.new test) inputs = some op →
      op.iter_ = inputs.length) :=
  C14_one_TL_one_AD_per_call (fun a b : Int => a * b) (fun a b : Int => a * b)
    (linearCost true (fun x => 2 * x) 1
      (fun _ => ⟨fun x => 3 * x, fun y => 3 * y, fun y => 5 * y⟩))
    (HessianMatrix.new false) 1 0
    { dz := 47, dw := 45, ww := [3], zz := [15], self := { test_ := false, iter_ := 1 },
      report := none } rfl

/-- C15: the outcome of `multiply` does not depend on the call counter or on the
self-test flag: for every `dx`, two operators over the same cost function issue the same
sequence of collaborator calls and leave the same `dz` (and both return or both fail),
whatever their `iter_` and `test_` and whatever `dz` held before. -/
theorem C15_counter_and_flag_irrelevant {X Y P E K : Type} [AddCommMonoid X]
    [AddCommMonoid K] (dotX : X → X → K) (dotY : Y → Y → K) (j : CostFunction X Y P E)
    (self₁ self₂ : HessianMatrix) (dx dz₁ dz₂ : X) :
    (HessianMatrix.multiply dotX dotY j self₁ dx dz₁).calls
      = (HessianMatrix.multiply dotX dotY j self₂ dx dz₂).calls ∧
    (HessianMatrix.multiply dotX dotY j self₁ dx dz₁).dz?
      = (HessianMatrix.multiply dotX dotY j self₂ dx dz₂).dz? := by
  rw [multiply_eq_forward dotX dotY j self₁, multiply_eq_forward dotX dotY j self₂]
  rcases HessianMatrix.forward j dx with ⟨c, f | fw⟩
  · exact ⟨rfl, rfl⟩
  · dsimp only
    cases j.runADJ fw.dw fw.costad <;> exact ⟨rfl, rfl⟩

/-- C16: with fallible integrations (and a tangent-linear integration that keeps the
number of enrolled processors), `multiply` fails exactly when an integration fails, with
that error: if `runTLM` fails, the call fails with its error and no adjoint integration
is started; if `runTLM` returns, the call fails with the error of `runADJ` when that call
fails and returns when it returns; no integration is run twice. -/
theorem C16_failures_propagate {X Y P E K : Type} [AddCommMonoid X] [AddCommMonoid K]
    (dotX : X → X → K) (dotY : Y → Y → K) (j : CostFunction X Y P E)
    (self : HessianMatrix) (dx dz : X)
    (hwf : ∀ mdx pp, j.runTLM dx (HessianMatrix.costtl j dx) = Except.ok (mdx, pp) →
      pp.length = (HessianMatrix.costtl j dx).length) :
    (∀ e, j.runTLM dx (HessianMatrix.costtl j dx) = Except.error e →
      (HessianMatrix.multiply dotX dotY j self dx dz).result = Except.error (Failure.tlm e) ∧
      Call.runADJ ∉ (HessianMatrix.multiply dotX dotY j self dx dz).calls) ∧
    (∀ mdx pp, j.runTLM dx (HessianMatrix.costtl j dx) = Except.ok (mdx, pp) →
      ∃ c fw, HessianMatrix.forward j dx = (c, Except.ok fw) ∧
        (∀ e, j.runADJ fw.dw fw.costad = Except.error e →
          (HessianMatrix.multiply dotX dotY j self dx dz).result
            = Except.error (Failure.adj e)) ∧
        (∀ dw, j.runADJ fw.dw fw.costad = Except.ok dw →
          ∃ r, (HessianMatrix.multiply dotX dotY j self dx dz).result = Except.ok r)) ∧
    (HessianMatrix.multiply dotX dotY j self dx dz).calls.count Call.runTLM = 1 ∧
    (HessianMatrix.multiply dotX dotY j self dx dz).calls.count Call.runADJ ≤ 1 := by
  refine ⟨?_, ?_, (multiply_calls_counts dotX dotY j self dx dz).1,
    (multiply_calls_counts dotX dotY j self dx dz).2⟩
  · intro e he
    rw [multiply_eq_forward, forward_tlm_error j dx e he]
    refine ⟨rfl, ?_⟩
    simp
  · intro mdx pp hT
    have hlen : HessianMatrix.iq j + j.nterms ≤ pp.length := by
      rw [hwf mdx pp hT, costtl_length]
    obtain ⟨c, fw, hF⟩ := forward_ok_of_length j dx mdx pp hT hlen
    refine ⟨c, fw, hF, ?_, ?_⟩
    · intro e he
      rw [multiply_eq_forward, hF]
      dsimp only
      rw [he]
    · intro dw hdw
      rw [multiply_eq_forward, hF]
      dsimp only
      rw [hdw]
      exact ⟨_, rfl⟩

/-- Witness of C16: the linear cost function with one term whose adjoint integration
raises the error 7. -/
theorem C16_failures_propagate_witness :
    (∀ e, (faultyCost none (some 7) false (fun x : Int => 2 * x) 1
          (fun _ => ⟨fun x => 3 * x, fun y => 3 * y, fun y : Int => 5 * y⟩) :
          CostFunction Int Int (LinearHook Int) Nat).runTLM 1
        (HessianMatrix.costtl (faultyCost none (some 7) false (fun x : Int => 2 * x) 1
          (fun _ => ⟨fun x => 3 * x, fun y => 3 * y, fun y : Int => 5 * y⟩) :
          CostFunction Int Int (LinearHook Int) Nat) 1) = Except.error e →
      (HessianMatrix.multiply (fun a b : Int => a * b) (fun a b : Int => a * b)
        (faultyCost none (some 7) false (fun x : Int => 2 * x) 1
          (fun _ => ⟨fun x => 3 * x, fun y => 3 * y, fun y : Int => 5 * y⟩) :
          CostFunction Int Int (LinearHook Int) Nat)
        (HessianMatrix.new false) 1 0).result = Except.error (Failure.tlm e) ∧
      Call.runADJ ∉ (HessianMatrix.multiply (fun a b : Int => a * b) (fun a b : Int => a * b)
        (faultyCost none (some 7) false (fun x : Int => 2 * x) 1
          (fun _ => ⟨fun x => 3 * x, fun y => 3 * y, fun y : Int => 5 * y⟩) :
          CostFunction Int Int (LinearHook Int) Nat)
        (HessianMatrix.new false) 1 0).calls) ∧
    (∀ mdx pp, (faultyCost none (some 7) false (fun x : Int => 2 * x) 1
          (fun _ => ⟨fun x => 3 * x, fun y => 3 * y, fun y : Int => 5 * y⟩) :
          CostFunction Int Int (LinearHook Int) Nat).runTLM 1
        (HessianMatrix.costtl (faultyCost none (some 7) false (fun x : Int => 2 * x) 1
          (fun _ => ⟨fun x => 3 * x, fun y => 3 * y, fun y : Int => 5 * y⟩) :
          CostFunction Int Int (LinearHook Int) Nat) 1) = Except.ok (mdx, pp) →
      ∃ c fw, HessianMatrix.forward (faultyCost none (some 7) false (fun x : Int => 2 * x) 1
          (fun _ => ⟨fun x => 3 * x, fun y => 3 * y, fun y : Int => 5 * y⟩) :
          CostFunction Int Int (LinearHook Int) Nat) 1 = (c, Except.ok fw) ∧
        (∀ e, (faultyCost none (some 7) false (fun x : Int => 2 * x) 1
          (fun _ => ⟨fun x => 3 * x, fun y => 3 * y, fun y : Int => 5 * y⟩) :
          CostFunction Int Int (LinearHook Int) Nat).runADJ fw.dw fw.costad = Except.error e →
          (HessianMatrix.multiply (fun a b : Int => a * b) (fun a b : Int => a * b)
            (faultyCost none (some 7) false (fun x : Int => 2 * x) 1
              (fun _ => ⟨fun x => 3 * x, fun y => 3 * y, fun y : Int => 5 * y⟩) :
              CostFunction Int Int (LinearHook Int) Nat)
            (HessianMatrix.new false) 1 0).result = Except.error (Failure.adj e)) ∧
        (∀ dw, (faultyCost none (some 7) false (fun x : Int => 2 * x) 1
          (fun _ => ⟨fun x => 3 * x, fun y => 3 * y, fun y : Int => 5 * y⟩) :
          CostFunction Int Int (LinearHook Int) Nat).runADJ fw.dw fw.costad = Except.ok dw →
          ∃ r, (HessianMatrix.multiply (fun a b : Int => a * b) (fun a b : Int => a * b)
            (faultyCost none (some 7) false (fun x : Int => 2 * x) 1
              (fun _ => ⟨fun x => 3 * x, fun y => 3 * y, fun y : Int => 5 * y⟩) :
              CostFunction Int Int (LinearHook Int) Nat)
            (HessianMatrix.new false) 1 0).result = Except.ok r)) ∧
    (HessianMatrix.multiply (fun a b : Int => a * b) (fun a b : Int => a * b)
      (faultyCost none (some 7) false (fun x : Int => 2 * x) 1
        (fun _ => ⟨fun x => 3 * x, fun y => 3 * y, fun y : Int => 5 * y⟩) :
        CostFunction Int Int (LinearHook Int) Nat)
      (HessianMatrix.new false) 1 0).calls.count Call.runTLM = 1 ∧
    (HessianMatrix.multiply (fun a b : Int => a * b) (fun a b : Int => a * b)
      (faultyCost none (some 7) false (fun x : Int => 2 * x) 1
        (fun _ => ⟨fun x => 3 * x, fun y => 3 * y, fun y : Int => 5 * y⟩) :
        CostFunction Int Int (LinearHook Int) Nat)
      (HessianMatrix.new false) 1 0).calls.count Call.runADJ ≤ 1 :=
  C16_failures_propagate (fun a b : Int => a * b) (fun a b : Int => a * b)
    (faultyCost none (some 7) false (fun x : Int => 2 * x) 1
      (fun _ => ⟨fun x => 3 * x, fun y => 3 * y, fun y : Int => 5 * y⟩) :
      CostFunction Int Int (LinearHook Int) Nat)
    (HessianMatrix.new false) 1 0
    (fun mdx pp h => by
      simp only [faultyCost, linearCost, Except.ok.injEq, Prod.mk.injEq] at h ⊢
      rw [← h.2, List.length_map])

theorem dualDot_map_range {Y K : Type} [AddCommMonoid K] (dotY : Y → Y → K)
    (f g : Nat → Y) (n : Nat) :
    dualDot dotY ((List.range n).map f) ((List.range n).map g)
      = ∑ jj ∈ Finset.range n, dotY (f jj) (g jj) := by
  unfold dualDot
  induction n with
  | zero => simp
  | succ n ih =>
    rw [List.range_succ, List.map_append, List.map_append,
      List.zipWith_append _ _ _ _ _ (by simp), List.sum_append, ih, Finset.sum_range_succ]
    simp

/-- C17: with the self-test enabled, `multiply` on the linear cost function reports the
forward value `Σ_j ⟨H_j·dx, R_j⁻¹H_j·dx⟩` and the backward value `⟨dx, dw⟩`, where
`dw = Σ_j H_jᵗR_j⁻¹H_j·dx` is the output of the adjoint integration (`dz` is `B⁻¹·dx + dw`);
the two values are equal whenever each term's adjoint operator is the exact adjoint of
its tangent-linear operator. -/
theorem C17_self_test_values {X Y K : Type} [AddCommMonoid X] [Zero Y] [AddCommGroup K]
    (dotX : X → X → K) (dotY : Y → Y → K)
    (jq : Bool) (Binv : X → X) (n : Nat) (term : Nat → LinearTerm X Y)
    (self : HessianMatrix) (dx dz : X) (htest : self.test_ = true) :
    ∃ r rep, (HessianMatrix.multiply dotX dotY (linearCost jq Binv n term) self dx dz).result
        = Except.ok r ∧
      r.report = some rep ∧
      rep.adj_tst_fwd
        = ∑ jj ∈ Finset.range n, dotY ((term jj).H dx) ((term jj).Rinv ((term jj).H dx)) ∧
      rep.adj_tst_bwd = dotX dx r.dw ∧
      r.dw = ∑ jj ∈ Finset.range n, (term jj).Ht ((term jj).Rinv ((term jj).H dx)) ∧
      r.dz = Binv dx + r.dw ∧
      (IsDotProduct dotX →
        (∀ jj, jj < n → ∀ x y, dotX x ((term jj).Ht y) = dotY ((term jj).H x) y) →
        rep.adj_tst_fwd = rep.adj_tst_bwd) := by
  rw [multiply_linearCost]
  simp only [htest, if_true]
  refine ⟨_, _, rfl, rfl, ?_, rfl, ?_, rfl, ?_⟩
  · exact dualDot_map_range dotY _ _ n
  · exact list_sum_range_eq_finset _ n
  · intro hX hAdj
    show dualDot dotY _ _ = dotX dx (adjointOutput n term dx)
    rw [dualDot_map_range, adjointOutput, list_sum_range_eq_finset, hX.sum_right]
    refine Finset.sum_congr rfl (fun jj hjj => ?_)
    rw [hAdj jj (Finset.mem_range.mp hjj)]

/-- Witness of C17: integer scalars, two terms `H = Hᵗ = 3·`, `R⁻¹ = 5·`, `B⁻¹ = 2·`, and
the self-test enabled. -/
theorem C17_self_test_values_witness :
    ∃ r rep, (HessianMatrix.multiply (fun a b : Int => a * b) (fun a b : Int => a * b)
        (linearCost false (fun x => 2 * x) 2
          (fun _ => ⟨fun x => 3 * x, fun y => 3 * y, fun y => 5 * y⟩))
        (HessianMatrix.new true) 1 0).result = Except.ok r ∧
      r.report = some rep ∧
      rep.adj_tst_fwd = ∑ _jj ∈ Finset.range 2, (fun a b : Int => a * b) (3 * 1) (5 * (3 * 1)) ∧
      rep.adj_tst_bwd = (fun a b : Int => a * b) 1 r.dw ∧
      r.dw = ∑ _jj ∈ Finset.range 2, 3 * (5 * (3 * 1)) ∧
      r.dz = 2 * 1 + r.dw ∧
      (IsDotProduct (fun a b : Int => a * b) →
        (∀ jj, jj < 2 → ∀ x y : Int, (fun a b : Int => a * b) x (3 * y)
          = (fun a b : Int => a * b) (3 * x) y) →
        rep.adj_tst_fwd = rep.adj_tst_bwd) :=
  C17_self_test_values (fun a b : Int => a * b) (fun a b : Int => a * b) false
    (fun x => 2 * x) 2 (fun _ => ⟨fun x => 3 * x, fun y => 3 * y, fun y => 5 * y⟩)
    (HessianMatrix.new true) 1 0 rfl

/-- C18: in a returning call of `multiply` the dual vectors follow the term order: for
every `jj < nterms`, position `iq + jj` of the enrolled processors holds the processor
set up by term `jj` (`iq` is 1 when the background term supplied a processor and 0
otherwise), entry `jj` of `ww` is the output released from the processor at position
`iq + jj` after the tangent-linear integration, entry `jj` of `zz` is `multiplyCoInv` of
term `jj` applied to that entry, and the adjoint processor of term `jj` is set up with
entry `jj` of `zz`; `ww` and `zz` have `nterms` entries. -/
theorem C18_dual_vectors_follow_terms {X Y P E K : Type} [AddCommMonoid X] [AddCommMonoid K]
    (dotX : X → X → K) (dotY : Y → Y → K) (j : CostFunction X Y P E)
    (self : HessianMatrix) (dx dz : X) (r : Multiplied X Y K)
    (h : (HessianMatrix.multiply dotX dotY j self dx dz).result = Except.ok r) :
    ∃ c fw, HessianMatrix.forward j dx = (c, Except.ok fw) ∧
      j.runADJ fw.dw fw.costad = Except.ok r.dw ∧
      HessianMatrix.iq j = (if j.jb_initializeTL.isSome then 1 else 0) ∧
      r.ww.length = j.nterms ∧ r.zz.length = j.nterms ∧
      ∀ jj, jj < j.nterms →
        (HessianMatrix.costtl j dx)[HessianMatrix.iq j + jj]? = some (j.jterm_setupTL jj dx) ∧
        ∃ p w z, fw.costtl[HessianMatrix.iq j + jj]? = some p ∧
          r.ww[jj]? = some w ∧ w = j.releaseOutputFromTL p ∧
          r.zz[jj]? = some z ∧ z = j.jterm_multiplyCoInv jj w ∧
          fw.costad[(enrollProcessor [] fw.jqad).length + jj]?
            = some (j.jterm_setupAD jj z fw.dw) := by
  obtain ⟨c, fw, hF, hA, _, _, hww, hzz, _, _⟩ := multiply_ok_inv dotX dotY j self dx dz r h
  obtain ⟨_, _, hw, hz, _, hpt⟩ := forward_ok_inv j dx c fw hF
  refine ⟨c, fw, hF, hA, rfl, by rw [hww, hw], by rw [hzz, hz], ?_⟩
  intro jj hjj
  obtain ⟨p, hp, hpw, hpz, hpc⟩ := hpt jj hjj
  refine ⟨costtl_getElem? j dx jj hjj, p, _, _, hp, ?_, rfl, ?_, rfl, hpc⟩
  · rw [hww]; exact hpw
  · rw [hzz]; exact hpz

/-- Witness of C18: integer scalars, a background processor and one term `H = Hᵗ = 3·`,
`R⁻¹ = 5·`, `B⁻¹ = 2·`, applied to `dx = 1`. -/
theorem C18_dual_vectors_follow_terms_witness :
    ∃ c fw, HessianMatrix.forward (linearCost true (fun x : Int => 2 * x) 1
        (fun _ => ⟨fun x => 3 * x, fun y => 3 * y, fun y : Int => 5 * y⟩)) 1
        = (c, Except.ok fw) ∧
      (linearCost true (fun x : Int => 2 * x) 1
        (fun _ => ⟨fun x => 3 * x, fun y => 3 * y, fun y : Int => 5 * y⟩)).runADJ fw.dw fw.costad
        = Except.ok 45 ∧
      HessianMatrix.iq (linearCost true (fun x : Int => 2 * x) 1
        (fun _ => ⟨fun x => 3 * x, fun y => 3 * y, fun y : Int => 5 * y⟩)) = 1 ∧
      ([3] : List Int).length = 1 ∧ ([15] : List Int).length = 1 ∧
      ∀ jj, jj < 1 →
        (HessianMatrix.costtl (linearCost true (fun x : Int => 2 * x) 1
          (fun _ => ⟨fun x => 3 * x, fun y => 3 * y, fun y : Int => 5 * y⟩)) 1)[1 + jj]?
          = some (LinearHook.tl jj 0) ∧
        ∃ p w z, fw.costtl[1 + jj]? = some p ∧
          ([3] : List Int)[jj]? = some w ∧
          w = (linearCost true (fun x : Int => 2 * x) 1
            (fun _ => ⟨fun x => 3 * x, fun y => 3 * y, fun y : Int => 5 * y⟩)).releaseOutputFromTL p ∧
          ([15] : List Int)[jj]? = some z ∧ z = 5 * w ∧
          fw.costad[(enrollProcessor [] fw.jqad).length + jj]? = some (LinearHook.ad jj z) :=
  C18_dual_vectors_follow_terms (fun a b : Int => a * b) (fun a b : Int => a * b)
    (linearCost true (fun x => 2 * x) 1
      (fun _ => ⟨fun x => 3 * x, fun y => 3 * y, fun y => 5 * y⟩))
    (HessianMatrix.new false) 1 0
    { dz := 47, dw := 45, ww := [3], zz := [15], self := { test_ := false, iter_ := 1 },
      report := none } rfl

/-- C19 (counterexample): in the returning call of `multiply` on the linear cost
function with one term, the processors `setupTL 0` and `setupAD 0` are set up, and the
only release is that of the tangent-linear output: after `setupAD 0` the call issues
`runADJ` and `finalizeAD` only, so two set-ups face one release. -/
theorem C19_adjoint_processor_not_released :
    (HessianMatrix.multiply (fun a b : Int => a * b) (fun a b : Int => a * b)
      (linearCost false (fun x => 2 * x) 1
        (fun _ => ⟨fun x => 3 * x, fun y => 3 * y, fun y => 5 * y⟩))
      (HessianMatrix.new false) 1 0).calls
      = [Call.jb_initializeTL, Call.setupTL 0, Call.runTLM, Call.jb_finalizeTL,
         Call.jb_multiplyBinv, Call.jb_initializeAD, Call.zeroAD, Call.releaseOutputFromTL 0,
         Call.multiplyCoInv 0, Call.setupAD 0, Call.runADJ, Call.jb_finalizeAD] ∧
    (HessianMatrix.multiply (fun a b : Int => a * b) (fun a b : Int => a * b)
      (linearCost false (fun x => 2 * x) 1
        (fun _ => ⟨fun x => 3 * x, fun y => 3 * y, fun y => 5 * y⟩))
      (HessianMatrix.new false) 1 0).calls.countP Call.isSetup = 2 ∧
    (HessianMatrix.multiply (fun a b : Int => a * b) (fun a b : Int => a * b)
      (linearCost false (fun x => 2 * x) 1
        (fun _ => ⟨fun x => 3 * x, fun y => 3 * y, fun y => 5 * y⟩))
      (HessianMatrix.new false) 1 0).calls.countP Call.isRelease = 1 := by
  rw [multiply_linearCost]
  exact ⟨rfl, rfl, rfl⟩

/-- C19 (amended): in a returning call of `multiply` with `nterms` terms, for every
`jj < nterms` the processor of term `jj` is set up once for the tangent-linear
integration and its output is released exactly once (`releaseOutputFromTL(iq + jj)`),
and its adjoint processor is set up once; the call issues `2·nterms` set-ups and
`nterms` releases, in the order of the complete log. -/
theorem C19_tangent_linear_outputs_released_once {X Y P E K : Type} [AddCommMonoid X]
    [AddCommMonoid K] (dotX : X → X → K) (dotY : Y → Y → K) (j : CostFunction X Y P E)
    (self : HessianMatrix) (dx dz : X) (r : Multiplied X Y K)
    (h : (HessianMatrix.multiply dotX dotY j self dx dz).result = Except.ok r) :
    (HessianMatrix.multiply dotX dotY j self dx dz).calls
      = multiplyCalls (HessianMatrix.iq j) j.nterms ∧
    (∀ jj, jj < j.nterms →
      (HessianMatrix.multiply dotX dotY j self dx dz).calls.count (Call.setupTL jj) = 1 ∧
      (HessianMatrix.multiply dotX dotY j self dx dz).calls.count
        (Call.releaseOutputFromTL (HessianMatrix.iq j + jj)) = 1 ∧
      (HessianMatrix.multiply dotX dotY j self dx dz).calls.count (Call.setupAD jj) = 1) ∧
    (HessianMatrix.multiply dotX dotY j self dx dz).calls.countP Call.isSetup
      = 2 * j.nterms ∧
    (HessianMatrix.multiply dotX dotY j self dx dz).calls.countP Call.isRelease
      = j.nterms := by
  obtain ⟨c, fw, _, _, hcalls, _⟩ := multiply_ok_inv dotX dotY j self dx dz r h
  rw [hcalls]
  refine ⟨rfl, ?_, ?_, ?_⟩
  · intro jj hjj
    refine ⟨?_, ?_, ?_⟩
    · simp [multiplyCalls, List.count_append, List.count_cons, count_setupTL_self, hjj,
        count_termCalls_other (HessianMatrix.iq j) j.nterms (Call.setupTL jj)
          (fun _ h => by cases h) (fun _ h => by cases h) (fun _ h => by cases h)]
    · simp [multiplyCalls, List.count_append, List.count_cons, count_termCalls_release, hjj,
        count_setupTL_other j.nterms (Call.releaseOutputFromTL (HessianMatrix.iq j + jj))
          (fun _ h => by cases h)]
    · simp [multiplyCalls, List.count_append, List.count_cons, count_termCalls_setupAD, hjj,
        count_setupTL_other j.nterms (Call.setupAD jj) (fun _ h => by cases h)]
  · simp only [multiplyCalls, List.countP_append, countP_isSetup_setupTL,
      countP_isSetup_termCalls, List.countP_cons, List.countP_nil, Call.isSetup]
    simp
    omega
  · simp only [multiplyCalls, List.countP_append, countP_isRelease_setupTL,
      countP_isRelease_termCalls, List.countP_cons, List.countP_nil, Call.isRelease]
    simp

/-- Witness of the amended C19: integer scalars, a background processor and one term
`H = Hᵗ = 3·`, `R⁻¹ = 5·`, `B⁻¹ = 2·`, applied to `dx = 1`. -/
theorem C19_tangent_linear_outputs_released_once_witness :
    (HessianMatrix.multiply (fun a b : Int => a * b) (fun a b : Int => a * b)
      (linearCost true (fun x => 2 * x) 1
        (fun _ => ⟨fun x => 3 * x, fun y => 3 * y, fun y => 5 * y⟩))
      (HessianMatrix.new false) 1 0).calls = multiplyCalls 1 1 ∧
    (∀ jj, jj < 1 →
      (HessianMatrix.multiply (fun a b : Int => a * b) (fun a b : Int => a * b)
        (linearCost true (fun x => 2 * x) 1
          (fun _ => ⟨fun x => 3 * x, fun y => 3 * y, fun y => 5 * y⟩))
        (HessianMatrix.new false) 1 0).calls.count (Call.setupTL jj) = 1 ∧
      (HessianMatrix.multiply (fun a b : Int => a * b) (fun a b : Int => a * b)
        (linearCost true (fun x => 2 * x) 1
          (fun _ => ⟨fun x => 3 * x, fun y => 3 * y, fun y => 5 * y⟩))
        (HessianMatrix.new false) 1 0).calls.count (Call.releaseOutputFromTL (1 + jj)) = 1 ∧
      (HessianMatrix.multiply (fun a b : Int => a * b) (fun a b : Int => a * b)
        (linearCost true (fun x => 2 * x) 1
          (fun _ => ⟨fun x => 3 * x, fun y => 3 * y, fun y => 5 * y⟩))
        (HessianMatrix.new false) 1 0).calls.count (Call.setupAD jj) = 1) ∧
    (HessianMatrix.multiply (fun a b : Int => a * b) (fun a b : Int => a * b)
      (linearCost true (fun x => 2 * x) 1
        (fun _ => ⟨fun x => 3 * x, fun y => 3 * y, fun y => 5 * y⟩))
      (HessianMatrix.new false) 1 0).calls.countP Call.isSetup = 2 * 1 ∧
    (HessianMatrix.multiply (fun a b : Int => a * b) (fun a b : Int => a * b)
      (linearCost true (fun x => 2 * x) 1
        (fun _ => ⟨fun x => 3 * x, fun y => 3 * y, fun y => 5 * y⟩))
      (HessianMatrix.new false) 1 0).calls.countP Call.isRelease = 1 :=
  C19_tangent_linear_outputs_released_once (fun a b : Int => a * b) (fun a b : Int => a * b)
    (linearCost true (fun x => 2 * x) 1
      (fun _ => ⟨fun x => 3 * x, fun y => 3 * y, fun y => 5 * y⟩))
    (HessianMatrix.new false) 1 0
    { dz := 47, dw := 45, ww := [3], zz := [15], self := { test_ := false, iter_ := 1 },
      report := none } rfl

/-! ### Further claims about `Ensemble::linearize` -/

/-- C20: after a returning `linearize` (either mode) on an ensemble as its constructor
leaves it, configured with `R` members, the stored collection has exactly `R` entries,
`size()` is `R`, and entry `jm` is the perturbation built from the `jm`-th member
descriptor of the configuration. -/
theorem C20_perturbations_stored_in_order {T G D V K : Type} [DecidableEq T] [Field K]
    [AddCommGroup V] [Module K V] (M : Model T G D V) (sqrt : K → K) (validTime : T)
    (conf : EnsembleConfig D) (xb : State T V) (resol : G) (Kinv : V → V)
    (hcount : conf.state.length = conf.rank)
    (hxb : xb.validTime = validTime)
    (hmem : ∀ d ∈ conf.state, (M.read resol d).validTime = validTime) :
    ((Ensemble.linearize M sqrt (Ensemble.new validTime conf) xb resol).failure = none ∧
      (Ensemble.linearize M sqrt (Ensemble.new validTime conf) xb
        resol).self.ensemblePerturbs_.length = conf.rank ∧
      (Ensemble.linearize M sqrt (Ensemble.new validTime conf) xb resol).self.size
        = conf.rank ∧
      (∀ (jm : Nat) (d : D), conf.state[jm]? = some d →
        (Ensemble.linearize M sqrt (Ensemble.new validTime conf) xb resol).self.get? jm
          = some ((1 / sqrt ((conf.rank : K) - 1)) •
              ((M.read resol d).fields - memberMean K M resol conf.rank conf.state)))) ∧
    ((Ensemble.linearizeBalanced M sqrt (Ensemble.new validTime conf) xb resol Kinv).failure
        = none ∧
      (Ensemble.linearizeBalanced M sqrt (Ensemble.new validTime conf) xb resol
        Kinv).self.ensemblePerturbs_.length = conf.rank ∧
      (Ensemble.linearizeBalanced M sqrt (Ensemble.new validTime conf) xb resol
        Kinv).self.size = conf.rank ∧
      (∀ (jm : Nat) (d : D), conf.state[jm]? = some d →
        (Ensemble.linearizeBalanced M sqrt (Ensemble.new validTime conf) xb resol
          Kinv).self.get? jm
          = some ((1 / sqrt ((conf.rank : K) - 1)) •
              Kinv ((M.read resol d).fields
                - memberMean K M resol conf.rank conf.state)))) := by
  rw [linearize_new M sqrt validTime conf xb resol hcount hxb hmem,
    linearizeBalanced_new M sqrt validTime conf xb resol Kinv hcount hxb hmem]
  refine ⟨⟨rfl, by simp [hcount], rfl, ?_⟩, ⟨rfl, by simp [hcount], rfl, ?_⟩⟩
  · intro jm d hd
    simp only [Ensemble.get?, List.getElem?_map, hd, Option.map_some']
  · intro jm d hd
    simp only [Ensemble.get?, List.getElem?_map, hd, Option.map_some']

/-- Witness of C20: three real members 1, 2, 6 valid at time 7, background 10, and the
balance operator that doubles. -/
theorem C20_perturbations_stored_in_order_witness :
    ((Ensemble.linearize (⟨fun _ x => x, fun _ d => ⟨7, d⟩⟩ : Model Nat Unit ℝ ℝ) Real.sqrt
        (Ensemble.new 7 ⟨3, [1, 2, 6]⟩) ⟨7, 10⟩ ()).failure = none ∧
      (Ensemble.linearize (⟨fun _ x => x, fun _ d => ⟨7, d⟩⟩ : Model Nat Unit ℝ ℝ) Real.sqrt
        (Ensemble.new 7 ⟨3, [1, 2, 6]⟩) ⟨7, 10⟩ ()).self.ensemblePerturbs_.length = 3 ∧
      (Ensemble.linearize (⟨fun _ x => x, fun _ d => ⟨7, d⟩⟩ : Model Nat Unit ℝ ℝ) Real.sqrt
        (Ensemble.new 7 ⟨3, [1, 2, 6]⟩) ⟨7, 10⟩ ()).self.size = 3 ∧
      (∀ (jm : Nat) (d : ℝ), ([1, 2, 6] : List ℝ)[jm]? = some d →
        (Ensemble.linearize (⟨fun _ x => x, fun _ d => ⟨7, d⟩⟩ : Model Nat Unit ℝ ℝ) Real.sqrt
          (Ensemble.new 7 ⟨3, [1, 2, 6]⟩) ⟨7, 10⟩ ()).self.get? jm
          = some ((1 / Real.sqrt (((3 : Nat) : ℝ) - 1)) •
              (d - memberMean ℝ (⟨fun _ x => x, fun _ d => ⟨7, d⟩⟩ : Model Nat Unit ℝ ℝ) () 3
                [1, 2, 6])))) ∧
    ((Ensemble.linearizeBalanced (⟨fun _ x => x, fun _ d => ⟨7, d⟩⟩ : Model Nat Unit ℝ ℝ)
        Real.sqrt (Ensemble.new 7 ⟨3, [1, 2, 6]⟩) ⟨7, 10⟩ () (fun v => v / 2)).failure = none ∧
      (Ensemble.linearizeBalanced (⟨fun _ x => x, fun _ d => ⟨7, d⟩⟩ : Model Nat Unit ℝ ℝ)
        Real.sqrt (Ensemble.new 7 ⟨3, [1, 2, 6]⟩) ⟨7, 10⟩ ()
          (fun v => v / 2)).self.ensemblePerturbs_.length = 3 ∧
      (Ensemble.linearizeBalanced (⟨fun _ x => x, fun _ d => ⟨7, d⟩⟩ : Model Nat Unit ℝ ℝ)
        Real.sqrt (Ensemble.new 7 ⟨3, [1, 2, 6]⟩) ⟨7, 10⟩ () (fun v => v / 2)).self.size = 3 ∧
      (∀ (jm : Nat) (d : ℝ), ([1, 2, 6] : List ℝ)[jm]? = some d →
        (Ensemble.linearizeBalanced (⟨fun _ x => x, fun _ d => ⟨7, d⟩⟩ : Model Nat Unit ℝ ℝ)
          Real.sqrt (Ensemble.new 7 ⟨3, [1, 2, 6]⟩) ⟨7, 10⟩ () (fun v => v / 2)).self.get? jm
          = some ((1 / Real.sqrt (((3 : Nat) : ℝ) - 1)) •
              ((fun v : ℝ => v / 2)
                (d - memberMean ℝ (⟨fun _ x => x, fun _ d => ⟨7, d⟩⟩ : Model Nat Unit ℝ ℝ) () 3
                  [1, 2, 6]))))) :=
  C20_perturbations_stored_in_order (⟨fun _ x => x, fun _ d => ⟨7, d⟩⟩ : Model Nat Unit ℝ ℝ)
    Real.sqrt 7 ⟨3, [1, 2, 6]⟩ ⟨7, 10⟩ () (fun v => v / 2) (by decide) rfl (fun _ _ => rfl)

/-! ### Claims about `GeoVaLs` -/

theorem sum_zipWith_mul_self_nonneg {K : Type} [LinearOrderedField K] (l : List K) :
    0 ≤ (List.zipWith (fun a b => a * b) l l).sum := by
  rw [List.zipWith_same]
  apply List.sum_nonneg
  intro x hx
  obtain ⟨a, _, rfl⟩ := List.mem_map.mp hx
  exact mul_self_nonneg a

theorem sum_zipWith_mul_self_zero {K : Type} [Field K] {A : Type} (l : List A) :
    (List.zipWith (fun a b : K => a * b) (l.map (fun _ => 0)) (l.map (fun _ => 0))).sum
      = 0 := by
  simp

theorem valuesGeoVaLs_zero_dot {K : Type} [Field K] (g : RandomDraws K) (v : GeoValues K) :
    (valuesGeoVaLs g).dot_product_with ((valuesGeoVaLs g).zero v) ((valuesGeoVaLs g).zero v)
      = 0 := by
  simp only [valuesGeoVaLs, GeoValues.values, List.zipWith_cons_cons, List.sum_cons,
    mul_zero, zero_add]
  exact sum_zipWith_mul_self_zero v.rest

theorem valuesGeoVaLs_random_dot {K : Type} [LinearOrderedField K] (g : RandomDraws K)
    (v : GeoValues K) :
    0 < (valuesGeoVaLs g).dot_product_with ((valuesGeoVaLs g).random v)
      ((valuesGeoVaLs g).random v) := by
  simp only [valuesGeoVaLs, GeoValues.values, List.zipWith_cons_cons, List.sum_cons]
  have h0 : 0 < g.draw 0 * g.draw 0 := mul_self_pos.mpr (g.draw_ne_zero 0)
  have h1 := sum_zipWith_mul_self_nonneg
    ((List.range v.rest.length).map (fun i => g.draw (i + 1)))
  exact add_pos_of_pos_of_nonneg h0 h1

/-- C21: for every `GeoVaLs` object `v`, after `v.zero()` the inner product of `v` with
itself is exactly 0, and after `v.random()` it is strictly positive; so each round of
`testUtils` passes. -/
theorem C21_zero_and_random_dot_product {K : Type} [LinearOrderedField K]
    (g : RandomDraws K) (v : GeoValues K) :
    GeoVaLs.dot_product_with (valuesGeoVaLs g)
      (GeoVaLs.zero (valuesGeoVaLs g) v) (GeoVaLs.zero (valuesGeoVaLs g) v) = 0 ∧
    0 < GeoVaLs.dot_product_with (valuesGeoVaLs g)
      (GeoVaLs.random (valuesGeoVaLs g) v) (GeoVaLs.random (valuesGeoVaLs g) v) ∧
    testUtilsRound (valuesGeoVaLs g) v = true := by
  refine ⟨valuesGeoVaLs_zero_dot g v, valuesGeoVaLs_random_dot g v, ?_⟩
  simp only [testUtilsRound, GeoVaLs.dot_product_with, GeoVaLs.random, GeoVaLs.zero,
    Bool.and_eq_true, decide_eq_true_eq]
  exact ⟨valuesGeoVaLs_random_dot g v, valuesGeoVaLs_zero_dot g _⟩

/-- C21 at a concrete input: a generator that always hands out 1 and the object holding
the values 3, 4, 0. -/
theorem C21_zero_and_random_dot_product_witness :
    GeoVaLs.dot_product_with (valuesGeoVaLs (⟨fun _ => (1 : ℚ), fun _ => one_ne_zero⟩))
      (GeoVaLs.zero (valuesGeoVaLs (⟨fun _ => (1 : ℚ), fun _ => one_ne_zero⟩)) ⟨3, [4, 0]⟩)
      (GeoVaLs.zero (valuesGeoVaLs (⟨fun _ => (1 : ℚ), fun _ => one_ne_zero⟩)) ⟨3, [4, 0]⟩)
      = 0 ∧
    0 < GeoVaLs.dot_product_with (valuesGeoVaLs (⟨fun _ => (1 : ℚ), fun _ => one_ne_zero⟩))
      (GeoVaLs.random (valuesGeoVaLs (⟨fun _ => (1 : ℚ), fun _ => one_ne_zero⟩)) ⟨3, [4, 0]⟩)
      (GeoVaLs.random (valuesGeoVaLs (⟨fun _ => (1 : ℚ), fun _ => one_ne_zero⟩)) ⟨3, [4, 0]⟩)
      ∧
    testUtilsRound (valuesGeoVaLs (⟨fun _ => (1 : ℚ), fun _ => one_ne_zero⟩)) ⟨3, [4, 0]⟩
      = true :=
  C21_zero_and_random_dot_product ⟨fun _ => (1 : ℚ), fun _ => one_ne_zero⟩ ⟨3, [4, 0]⟩

/-! ### Claims about `ObsFilters` -/

theorem obsFilters_foldl_filters {C F Var : Type} (env : FilterEnv C F Var) (iter : Int)
    (confs : List C) (self : ObsFilters F Var) :
    (confs.foldl
      (fun self c =>
        if ObsFilters.apply env iter c then
          { filters_ := self.filters_ ++ [env.create c],
            geovars_ := self.geovars_ ++ env.requiredVars (env.create c),
            diagvars_ := self.diagvars_ ++ env.requiredHdiagnostics (env.create c) }
        else self) self).filters_
      = self.filters_ ++ (confs.filter (fun c => ObsFilters.apply env iter c)).map env.create := by
  induction confs generalizing self with
  | nil => simp
  | cons c cs ih =>
    rw [List.foldl_cons, ih]
    by_cases h : ObsFilters.apply env iter c = true
    · simp [h]
    · simp [h]

theorem obsFilters_new_filters {C F Var : Type} (env : FilterEnv C F Var) (iter : Int)
    (confs : List C) :
    (ObsFilters.new env iter confs).filters_
      = (if confs.length > 0 then [env.create env.preconf] else []) ++
          (confs.filter (fun c => ObsFilters.apply env iter c)).map env.create := by
  unfold ObsFilters.new
  exact obsFilters_foldl_filters env iter confs _

/-- C22: the constructor of `ObsFilters` instantiates a configured filter exactly when
it has no "apply at iterations" entry and the iteration is 0, or it has such an entry
and the iteration belongs to the set parsed from it; after the QC manager (if any) the
chain holds the instantiated filters in the order of the configuration. -/
theorem C22_filters_applied_at_iteration {C F Var : Type} (env : FilterEnv C F Var)
    (iter : Int) (confs : List C) :
    (∀ c, ObsFilters.apply env iter c = true ↔
      ((env.applyAtIterations c = none ∧ iter = 0) ∨
        ∃ s, env.applyAtIterations c = some s ∧ iter ∈ env.parseIntSet s)) ∧
    (ObsFilters.new env iter confs).filters_
      = (if confs.length > 0 then [env.create env.preconf] else []) ++
          (confs.filter (fun c => ObsFilters.apply env iter c)).map env.create := by
  refine ⟨?_, obsFilters_new_filters env iter confs⟩
  intro c
  unfold ObsFilters.apply
  cases h : env.applyAtIterations c with
  | none => simp
  | some s => simp

/-- C23: the chain of `ObsFilters` starts with the QC manager exactly when the
configuration lists at least one filter; for an empty list, and for the default
constructor, the chain is empty; for a non-empty list none of whose filters applies at
the iteration, the chain is the QC manager alone. -/
theorem C23_qc_manager_first {C F Var : Type} (env : FilterEnv C F Var)
    (iter : Int) (confs : List C) :
    ((∃ rest, (ObsFilters.new env iter confs).filters_ = env.create env.preconf :: rest)
      ↔ confs ≠ []) ∧
    (ObsFilters.new env iter ([] : List C)).filters_ = [] ∧
    (ObsFilters.empty : ObsFilters F Var).filters_ = [] ∧
    (confs ≠ [] → (∀ c ∈ confs, ObsFilters.apply env iter c = false) →
      (ObsFilters.new env iter confs).filters_ = [env.create env.preconf]) := by
  refine ⟨?_, ?_, rfl, ?_⟩
  · rw [obsFilters_new_filters]
    cases confs with
    | nil => simp
    | cons c cs => simp
  · rw [obsFilters_new_filters]
    simp
  · intro hne hnone
    rw [obsFilters_new_filters]
    have hpos : confs.length > 0 := List.length_pos.mpr hne
    have hfil : confs.filter (fun c => ObsFilters.apply env iter c) = [] := by
      rw [List.filter_eq_nil_iff]
      intro c hc
      simp [hnone c hc]
    simp [hpos, hfil]

/-! ### Claims about `StateEnsemble` -/

theorem stateEnsemble_new_states {D V : Type} (create : D → V) (memberConfig : List D) :
    (StateEnsemble.new create memberConfig).states_ = memberConfig.map create := by
  unfold StateEnsemble.new
  have h : ∀ (l : List D) (acc : List V),
      l.foldl (fun states d => states ++ [create d]) acc = acc ++ l.map create := by
    intro l
    induction l with
    | nil => intro acc; simp
    | cons d ds ih => intro acc; rw [List.foldl_cons, ih]; simp
  simpa using h memberConfig []

theorem foldl_accumul {K V : Type} [Field K] [AddCommGroup V] [Module K V] (rr : K)
    (l : List V) (acc : V) :
    l.foldl (fun ensmean x => ensmean + rr • x) acc = acc + rr • l.sum := by
  induction l generalizing acc with
  | nil => simp
  | cons x xs ih => rw [List.foldl_cons, ih, List.sum_cons, smul_add, add_assoc]

/-- C24: for every ensemble built from `N ≥ 1` member descriptors, `mean()` returns the
arithmetic mean `(1/N)·Σ_i state_i` of the member states, and `size()` returns `N` (for
`N` within the range of `unsigned int`). -/
theorem C24_state_ensemble_mean {D V K : Type} [Field K] [AddCommGroup V] [Module K V]
    (create : D → V) (memberConfig : List D) (hne : memberConfig ≠ []) :
    (StateEnsemble.new create memberConfig).mean K
      = some ((1 / (memberConfig.length : K)) • (memberConfig.map create).sum) ∧
    (memberConfig.length < 4294967296 →
      (StateEnsemble.new create memberConfig).size = memberConfig.length) := by
  constructor
  · unfold StateEnsemble.mean
    rw [stateEnsemble_new_states]
    cases memberConfig with
    | nil => exact absurd rfl hne
    | cons d ds =>
      simp only [List.map_cons, foldl_accumul, zero_add, List.length_cons, List.length_map]
  · intro hlt
    unfold StateEnsemble.size
    rw [stateEnsemble_new_states, List.length_map, Nat.mod_eq_of_lt hlt]

/-- Witness of C24: three rational states 1, 2, 6. -/
theorem C24_state_ensemble_mean_witness :
    (StateEnsemble.new (fun d : ℚ => d) [1, 2, 6]).mean ℚ
      = some ((1 / (([1, 2, 6] : List ℚ).length : ℚ)) • (([1, 2, 6] : List ℚ).map
          (fun d : ℚ => d)).sum) ∧
    (([1, 2, 6] : List ℚ).length < 4294967296 →
      (StateEnsemble.new (fun d : ℚ => d) [1, 2, 6]).size = ([1, 2, 6] : List ℚ).length) :=
  C24_state_ensemble_mean (fun d : ℚ => d) [1, 2, 6] (by simp)

/-! ### Claims about the test of the inverse variable change -/

/-- C25 (evaluation at the diverging input): with the inverse test enabled, tolerance
1/10, an inverse that is the identity and a variable change that doubles, the round on
`x = 1` is accepted although the norms of `K(K⁻¹x)` and `x` differ by 1. -/
theorem C25_inverse_test_one_sided :
    inverseTestRound (fun x : ℚ => |x|) (1 / 10) true
      (⟨fun y => 2 * y, fun x => x⟩ : LinearVariableChange ℚ ℚ) 1 = true ∧
    ¬ (|(fun x : ℚ => |x|)
          ((⟨fun y => 2 * y, fun x => x⟩ : LinearVariableChange ℚ ℚ).multiply
            ((⟨fun y => 2 * y, fun x => x⟩ : LinearVariableChange ℚ ℚ).multiplyInverse 1))
        - (fun x : ℚ => |x|) 1| < 1 / 10) := by
  constructor
  · simp only [inverseTestRound, if_true, decide_eq_true_eq]
    norm_num
  · norm_num

/-! ### Linearity and positivity of `HessianMatrix::multiply` -/

/-- C26: when its collaborators are linear maps, `multiply` is linear: for every scalar
`a` and control increments `dx`, `dy`, the calls on `dx`, `dy` and `a·dx + dy` return and
`multiply(a·dx + dy) = a·multiply(dx) + multiply(dy)`. -/
theorem C26_multiply_linear {X Y K : Type} [Field K] [AddCommGroup X] [AddCommGroup Y]
    [Module K X] [Module K Y] (dotX : X → X → K) (dotY : Y → Y → K)
    (jq : Bool) (Binv : X → X) (n : Nat) (term : Nat → LinearTerm X Y)
    (hlin : LinearCollaborators K Binv n term)
    (self₁ self₂ self₃ : HessianMatrix) (a : K) (dx dy dz₁ dz₂ dz₃ : X) :
    ∃ zx zy z : X,
      (HessianMatrix.multiply dotX dotY (linearCost jq Binv n term) self₁ dx dz₁).dz?
        = some zx ∧
      (HessianMatrix.multiply dotX dotY (linearCost jq Binv n term) self₂ dy dz₂).dz?
        = some zy ∧
      (HessianMatrix.multiply dotX dotY (linearCost jq Binv n term) self₃ (a • dx + dy)
        dz₃).dz? = some z ∧
      z = a • zx + zy := by
  refine ⟨_, _, _, multiply_linearCost_dz dotX dotY jq Binv n term self₁ dx dz₁,
    multiply_linearCost_dz dotX dotY jq Binv n term self₂ dy dz₂,
    multiply_linearCost_dz dotX dotY jq Binv n term self₃ (a • dx + dy) dz₃, ?_⟩
  have hterm : ∀ jj ∈ Finset.range n,
      (term jj).Ht ((term jj).Rinv ((term jj).H (a • dx + dy)))
        = a • (term jj).Ht ((term jj).Rinv ((term jj).H dx))
          + (term jj).Ht ((term jj).Rinv ((term jj).H dy)) := by
    intro jj hjj
    obtain ⟨hH, hHt, hRi⟩ := hlin.2 jj (Finset.mem_range.mp hjj)
    rw [hH.map_add, hH.map_smul, hRi.map_add, hRi.map_smul, hHt.map_add, hHt.map_smul]
  rw [Finset.sum_congr rfl hterm, Finset.sum_add_distrib, ← Finset.smul_sum,
    hlin.1.map_add, hlin.1.map_smul, smul_add]
  abel

/-- Witness of C26: rational scalars, two terms `H = Hᵗ = 3·`, `R⁻¹ = 5·`, `B⁻¹ = 2·`. -/
theorem C26_multiply_linear_witness :
    ∃ zx zy z : ℚ,
      (HessianMatrix.multiply (fun a b : ℚ => a * b) (fun a b : ℚ => a * b)
        (linearCost true (fun x => 2 * x) 2
          (fun _ => ⟨fun x => 3 * x, fun y => 3 * y, fun y => 5 * y⟩))
        (HessianMatrix.new false) 1 0).dz? = some zx ∧
      (HessianMatrix.multiply (fun a b : ℚ => a * b) (fun a b : ℚ => a * b)
        (linearCost true (fun x => 2 * x) 2
          (fun _ => ⟨fun x => 3 * x, fun y => 3 * y, fun y => 5 * y⟩))
        (HessianMatrix.new true) 4 0).dz? = some zy ∧
      (HessianMatrix.multiply (fun a b : ℚ => a * b) (fun a b : ℚ => a * b)
        (linearCost true (fun x => 2 * x) 2
          (fun _ => ⟨fun x => 3 * x, fun y => 3 * y, fun y => 5 * y⟩))
        (HessianMatrix.new false) ((7 : ℚ) • (1 : ℚ) + 4) 9).dz? = some z ∧
      z = (7 : ℚ) • zx + zy :=
  C26_multiply_linear (fun a b : ℚ => a * b) (fun a b : ℚ => a * b)
    true (fun x => 2 * x) 2 (fun _ => ⟨fun x => 3 * x, fun y => 3 * y, fun y => 5 * y⟩)
    ⟨⟨fun x y => mul_add 2 x y, fun c x => by simp only [smul_eq_mul]; ring⟩,
      fun _ _ => ⟨⟨fun x y => mul_add 3 x y, fun c x => by simp only [smul_eq_mul]; ring⟩,
        ⟨fun x y => mul_add 3 x y, fun c x => by simp only [smul_eq_mul]; ring⟩,
        ⟨fun x y => mul_add 5 x y, fun c x => by simp only [smul_eq_mul]; ring⟩⟩⟩
    (HessianMatrix.new false) (HessianMatrix.new true) (HessianMatrix.new false) 7 1 4 0 0 9

/-- C27: when every term's adjoint operator is the exact adjoint of its tangent-linear
operator and `B⁻¹` and every `R_j⁻¹` are positive semi-definite, the operator `A` applied
by `multiply` satisfies `⟨dx, A·dx⟩ = ⟨dx, B⁻¹dx⟩ + Σ_j ⟨H_j·dx, R_j⁻¹H_j·dx⟩ ≥ 0` for every
`dx`, and `⟨dx, A·dx⟩ > 0` for every non-zero `dx` when `B⁻¹` is positive definite. -/
theorem C27_multiply_positive {X Y K : Type} [AddCommMonoid X] [AddCommMonoid Y]
    [LinearOrderedField K] (dotX : X → X → K) (dotY : Y → Y → K)
    (jq : Bool) (Binv : X → X) (n : Nat) (term : Nat → LinearTerm X Y)
    (hX : IsDotProduct dotX)
    (hAdj : ∀ jj, jj < n → ∀ x y, dotX x ((term jj).Ht y) = dotY ((term jj).H x) y)
    (hB : ∀ x, 0 ≤ dotX x (Binv x))
    (hR : ∀ jj, jj < n → ∀ y, 0 ≤ dotY y ((term jj).Rinv y))
    (self : HessianMatrix) (dx dz : X) :
    ∃ Adx : X,
      (HessianMatrix.multiply dotX dotY (linearCost jq Binv n term) self dx dz).dz?
        = some Adx ∧
      dotX dx Adx = dotX dx (Binv dx) +
        ∑ jj ∈ Finset.range n, dotY ((term jj).H dx) ((term jj).Rinv ((term jj).H dx)) ∧
      0 ≤ dotX dx Adx ∧
      ((∀ x, x ≠ 0 → 0 < dotX x (Binv x)) → dx ≠ 0 → 0 < dotX dx Adx) := by
  have hval : dotX dx (Binv dx +
        ∑ jj ∈ Finset.range n, (term jj).Ht ((term jj).Rinv ((term jj).H dx)))
      = dotX dx (Binv dx) +
        ∑ jj ∈ Finset.range n, dotY ((term jj).H dx) ((term jj).Rinv ((term jj).H dx)) := by
    rw [hX.add_right, hX.sum_right]
    congr 1
    exact Finset.sum_congr rfl (fun jj hjj => hAdj jj (Finset.mem_range.mp hjj) _ _)
  have hsum : 0 ≤ ∑ jj ∈ Finset.range n,
      dotY ((term jj).H dx) ((term jj).Rinv ((term jj).H dx)) :=
    Finset.sum_nonneg (fun jj hjj => hR jj (Finset.mem_range.mp hjj) _)
  refine ⟨_, multiply_linearCost_dz dotX dotY jq Binv n term self dx dz, hval, ?_, ?_⟩
  · rw [hval]
    exact add_nonneg (hB dx) hsum
  · intro hpd hne
    rw [hval]
    exact add_pos_of_pos_of_nonneg (hpd dx hne) hsum

/-- Witness of C27: rational scalars, one term `H = Hᵗ = 3·`, `R⁻¹ = 5·`, `B⁻¹ = 2·`. -/
theorem C27_multiply_positive_witness :
    ∃ Adx : ℚ,
      (HessianMatrix.multiply (fun a b : ℚ => a * b) (fun a b : ℚ => a * b)
        (linearCost false (fun x => 2 * x) 1
          (fun _ => ⟨fun x => 3 * x, fun y => 3 * y, fun y => 5 * y⟩))
        (HessianMatrix.new false) 4 0).dz? = some Adx ∧
      (fun a b : ℚ => a * b) 4 Adx = (fun a b : ℚ => a * b) 4 (2 * 4) +
        ∑ _jj ∈ Finset.range 1, (fun a b : ℚ => a * b) (3 * 4) (5 * (3 * 4)) ∧
      0 ≤ (fun a b : ℚ => a * b) 4 Adx ∧
      ((∀ x : ℚ, x ≠ 0 → 0 < (fun a b : ℚ => a * b) x (2 * x)) → (4 : ℚ) ≠ 0 →
        0 < (fun a b : ℚ => a * b) 4 Adx) :=
  C27_multiply_positive (fun a b : ℚ => a * b) (fun a b : ℚ => a * b)
    false (fun x => 2 * x) 1 (fun _ => ⟨fun x => 3 * x, fun y => 3 * y, fun y => 5 * y⟩)
    ⟨fun x y => mul_comm x y, fun x y z => mul_add x y z⟩
    (fun _ _ x y => by ring)
    (fun x => by
      show (0 : ℚ) ≤ x * (2 * x)
      nlinarith [mul_self_nonneg x])
    (fun _ _ y => by
      show (0 : ℚ) ≤ y * (5 * y)
      nlinarith [mul_self_nonneg y])
    (HessianMatrix.new false) 4 0

/-! ### Comparison of the two modes of `Ensemble::linearize` -/

/-- C28: on an ensemble as its constructor leaves it, of `R ≥ 2` members whose valid
times and member count agree, the three-argument `linearize` with the identity as balance
operator returns the same perturbations as the two-argument `linearize`, for every
background; the perturbations of the two-argument `linearize` are the same for every
background of the configured valid time. -/
theorem C28_identity_balance_same_as_modeA {T G D V K : Type} [DecidableEq T] [Field K]
    [AddCommGroup V] [Module K V] (M : Model T G D V) (sqrt : K → K) (validTime : T)
    (conf : EnsembleConfig D) (xb : State T V) (resol : G)
    (_hR : 2 ≤ conf.rank)
    (hcount : conf.state.length = conf.rank)
    (hxb : xb.validTime = validTime)
    (hmem : ∀ d ∈ conf.state, (M.read resol d).validTime = validTime) :
    (Ensemble.linearizeBalanced M sqrt (Ensemble.new validTime conf) xb resol
      (fun v => v)).failure = none ∧
    (Ensemble.linearize M sqrt (Ensemble.new validTime conf) xb resol).failure = none ∧
    (Ensemble.linearizeBalanced M sqrt (Ensemble.new validTime conf) xb resol
      (fun v => v)).self.ensemblePerturbs_
      = (Ensemble.linearize M sqrt (Ensemble.new validTime conf) xb
          resol).self.ensemblePerturbs_ ∧
    (∀ xb2 : State T V, xb2.validTime = validTime →
      (Ensemble.linearize M sqrt (Ensemble.new validTime conf) xb2
          resol).self.ensemblePerturbs_
        = (Ensemble.linearize M sqrt (Ensemble.new validTime conf) xb
          resol).self.ensemblePerturbs_) := by
  rw [linearize_new M sqrt validTime conf xb resol hcount hxb hmem,
    linearizeBalanced_new M sqrt validTime conf xb resol (fun v => v) hcount hxb hmem]
  refine ⟨rfl, rfl, rfl, ?_⟩
  intro xb2 hxb2
  rw [linearize_new M sqrt validTime conf xb2 resol hcount hxb2 hmem]

/-- Witness of C28: three real members 1, 2, 6 valid at time 7 and the background 10. -/
theorem C28_identity_balance_same_as_modeA_witness :
    (Ensemble.linearizeBalanced (⟨fun _ x => x, fun _ d => ⟨7, d⟩⟩ : Model Nat Unit ℝ ℝ)
      Real.sqrt (Ensemble.new 7 ⟨3, [1, 2, 6]⟩) ⟨7, 10⟩ () (fun v => v)).failure = none ∧
    (Ensemble.linearize (⟨fun _ x => x, fun _ d => ⟨7, d⟩⟩ : Model Nat Unit ℝ ℝ)
      Real.sqrt (Ensemble.new 7 ⟨3, [1, 2, 6]⟩) ⟨7, 10⟩ ()).failure = none ∧
    (Ensemble.linearizeBalanced (⟨fun _ x => x, fun _ d => ⟨7, d⟩⟩ : Model Nat Unit ℝ ℝ)
      Real.sqrt (Ensemble.new 7 ⟨3, [1, 2, 6]⟩) ⟨7, 10⟩ () (fun v => v)).self.ensemblePerturbs_
      = (Ensemble.linearize (⟨fun _ x => x, fun _ d => ⟨7, d⟩⟩ : Model Nat Unit ℝ ℝ)
          Real.sqrt (Ensemble.new 7 ⟨3, [1, 2, 6]⟩) ⟨7, 10⟩ ()).self.ensemblePerturbs_ ∧
    (∀ xb2 : State Nat ℝ, xb2.validTime = 7 →
      (Ensemble.linearize (⟨fun _ x => x, fun _ d => ⟨7, d⟩⟩ : Model Nat Unit ℝ ℝ)
          Real.sqrt (Ensemble.new 7 ⟨3, [1, 2, 6]⟩) xb2 ()).self.ensemblePerturbs_
        = (Ensemble.linearize (⟨fun _ x => x, fun _ d => ⟨7, d⟩⟩ : Model Nat Unit ℝ ℝ)
          Real.sqrt (Ensemble.new 7 ⟨3, [1, 2, 6]⟩) ⟨7, 10⟩ ()).self.ensemblePerturbs_) :=
  C28_identity_balance_same_as_modeA (⟨fun _ x => x, fun _ d => ⟨7, d⟩⟩ : Model Nat Unit ℝ ℝ)
    Real.sqrt 7 ⟨3, [1, 2, 6]⟩ ⟨7, 10⟩ () (by decide) rfl rfl (fun _ _ => rfl)

theorem sum_map_smul_sub {V K D : Type} [Field K] [AddCommGroup V] [Module K V]
    (rk : K) (f : D → V) (c : V) (l : List D) :
    (l.map (fun d => rk • (f d - c))).sum = rk • ((l.map f).sum - l.length • c) := by
  induction l with
  | nil => simp
  | cons d ds ih =>
    rw [List.map_cons, List.sum_cons, ih, List.map_cons, List.sum_cons, List.length_cons,
      ← smul_add, succ_nsmul]
    congr 1
    abel

/-- C29: on an ensemble as its constructor leaves it, of `R ≥ 2` members whose valid
times and member count agree, the perturbations of the two-argument `linearize` sum to
the zero increment (exact arithmetic in a field of characteristic zero). -/
theorem C29_modeA_perturbations_centred {T G D V K : Type} [DecidableEq T] [Field K]
    [CharZero K] [AddCommGroup V] [Module K V] (M : Model T G D V) (sqrt : K → K)
    (validTime : T) (conf : EnsembleConfig D) (xb : State T V) (resol : G)
    (hR : 2 ≤ conf.rank)
    (hcount : conf.state.length = conf.rank)
    (hxb : xb.validTime = validTime)
    (hmem : ∀ d ∈ conf.state, (M.read resol d).validTime = validTime) :
    (Ensemble.linearize M sqrt (Ensemble.new validTime conf) xb
      resol).self.ensemblePerturbs_.sum = 0 := by
  rw [linearize_new M sqrt validTime conf xb resol hcount hxb hmem]
  simp only []
  rw [sum_map_smul_sub, hcount]
  have hne : (conf.rank : K) ≠ 0 := by
    have : conf.rank ≠ 0 := by omega
    exact_mod_cast this
  have hmean : conf.rank • memberMean K M resol conf.rank conf.state
      = (conf.state.map (fun d => (M.read resol d).fields)).sum := by
    rw [memberMean, ← Nat.cast_smul_eq_nsmul K, smul_smul, mul_one_div_cancel hne, one_smul]
  rw [hmean, sub_self, smul_zero]

/-- Witness of C29: three real members 1, 2, 6 valid at time 7 and the background 10. -/
theorem C29_modeA_perturbations_centred_witness :
    (Ensemble.linearize (⟨fun _ x => x, fun _ d => ⟨7, d⟩⟩ : Model Nat Unit ℝ ℝ)
      Real.sqrt (Ensemble.new 7 ⟨3, [1, 2, 6]⟩) ⟨7, 10⟩ ()).self.ensemblePerturbs_.sum = 0 :=
  C29_modeA_perturbations_centred (⟨fun _ x => x, fun _ d => ⟨7, d⟩⟩ : Model Nat Unit ℝ ℝ)
    Real.sqrt 7 ⟨3, [1, 2, 6]⟩ ⟨7, 10⟩ () (by decide) rfl rfl (fun _ _ => rfl)

/-! ### Failed calls of `Ensemble::linearize` -/

/-- When the member loop of the two-argument `linearize` fails, it fails on the valid
time of some member `i`, having appended the perturbations of the members before it. -/
theorem readMembersA_failed {T G D V K : Type} [DecidableEq T] [Field K] [AddCommGroup V]
    [Module K V] (M : Model T G D V) (resol : G) (validTime : T) (xblr : State T V) (rr : K)
    (confs : List D) (s s1 : MemberLoopA D V) (f : LinearizeFailure)
    (h : readMembersA M resol validTime xblr rr confs s = (s1, some f)) :
    ∃ i, i < confs.length ∧ f = LinearizeFailure.memberTime (s.jm + i) ∧
      s1.ensemblePerturbs_ = s.ensemblePerturbs_ ++
        (confs.take i).map (fun d => (M.read resol d).fields - xblr.fields) := by
  induction confs generalizing s with
  | nil => simp [readMembersA] at h
  | cons d ds ih =>
    by_cases hd : (M.read resol d).validTime = validTime
    · simp only [readMembersA, hd, if_true] at h
      obtain ⟨i, hi, hf, hp⟩ := ih _ h
      refine ⟨i + 1, by simp [hi], ?_, ?_⟩
      · rw [hf]; simp [Nat.add_assoc, Nat.add_comm 1]
      · rw [hp]; simp
    · simp only [readMembersA, hd, if_false, Prod.mk.injEq, Option.some.injEq] at h
      obtain ⟨hs, hf⟩ := h
      refine ⟨0, by simp, by simp [← hf], ?_⟩
      rw [← hs]; simp

/-- C30 (counterexample): the two-argument `linearize` on a fresh ensemble of two members,
the second of which has another valid time, fails on member 1 and leaves the
perturbation of member 0 in the collection, which was empty before. -/
theorem C30_modeA_failure_keeps_entries :
    (Ensemble.linearize (⟨fun _ x => x, fun _ d => ⟨d.1, d.2⟩⟩ : Model Nat Unit (Nat × ℚ) ℚ)
      (fun x : ℚ => x) (Ensemble.new 7 ⟨2, [(7, 1), (8, 5)]⟩) ⟨7, 10⟩ ()).failure
      = some (LinearizeFailure.memberTime 1) ∧
    (Ensemble.linearize (⟨fun _ x => x, fun _ d => ⟨d.1, d.2⟩⟩ : Model Nat Unit (Nat × ℚ) ℚ)
      (fun x : ℚ => x) (Ensemble.new 7 ⟨2, [(7, 1), (8, 5)]⟩) ⟨7, 10⟩ ()).self.ensemblePerturbs_
      = [-9] ∧
    (Ensemble.new 7 ⟨2, [(7, 1), (8, 5)]⟩ : Ensemble Nat Unit (Nat × ℚ) ℚ).ensemblePerturbs_
      = [] := by
  refine ⟨?_, ?_, rfl⟩
  · simp [Ensemble.linearize, Ensemble.new, EnsembleConfig.rank, readMembersA]
  · simp [Ensemble.linearize, Ensemble.new, EnsembleConfig.rank, readMembersA]
    norm_num

/-- C30 (amended): a failed three-argument `linearize` leaves the stored collection as it
was; a failed two-argument `linearize` leaves it as it was when it fails on the valid
time of the background or on the member count, and when it fails on the valid time of
member `k` it leaves the entries held before followed by the `k` perturbations
`member_j − background`, `j < k` (so nothing is added for `k = 0`). -/
theorem C30_collection_after_failure {T G D V K : Type} [DecidableEq T] [Field K]
    [AddCommGroup V] [Module K V] (M : Model T G D V) (sqrt : K → K)
    (self : Ensemble T G D V) (xb : State T V) (resol : G) (Kinv : V → V) :
    (∀ f, (Ensemble.linearizeBalanced M sqrt self xb resol Kinv).failure = some f →
      (Ensemble.linearizeBalanced M sqrt self xb resol Kinv).self.ensemblePerturbs_
        = self.ensemblePerturbs_) ∧
    ((Ensemble.linearize M sqrt self xb resol).failure = some LinearizeFailure.backgroundTime →
      (Ensemble.linearize M sqrt self xb resol).self.ensemblePerturbs_
        = self.ensemblePerturbs_) ∧
    ((Ensemble.linearize M sqrt self xb resol).failure = some LinearizeFailure.memberCount →
      (Ensemble.linearize M sqrt self xb resol).self.ensemblePerturbs_
        = self.ensemblePerturbs_) ∧
    (∀ k, (Ensemble.linearize M sqrt self xb resol).failure
        = some (LinearizeFailure.memberTime k) →
      k < self.config_.state.length ∧
      (Ensemble.linearize M sqrt self xb resol).self.ensemblePerturbs_
        = self.ensemblePerturbs_ ++ (self.config_.state.take k).map
            (fun d => (M.read resol d).fields - (M.changeResolution resol xb).fields)) := by
  refine ⟨?_, ?_, ?_, ?_⟩
  · intro f hf
    unfold Ensemble.linearizeBalanced at hf ⊢
    by_cases h1 : xb.validTime = self.validTime_
    · by_cases h2 : self.config_.state.length = self.rank_
      · simp only [h1, h2, if_true] at hf ⊢
        rcases hr : readMembersB M resol self.validTime_ (1 / (self.rank_ : K))
          self.config_.state { ens_ := [], bgmean := 0, reads := [], jm := 0 }
          with ⟨s, _ | g⟩
        · rw [hr] at hf; simp at hf
        · rfl
      · simp [h1, h2]
    · simp [h1]
  · unfold Ensemble.linearize
    by_cases h1 : xb.validTime = self.validTime_
    · by_cases h2 : self.config_.state.length = self.rank_
      · simp only [h1, h2, if_true]
        rcases hr : readMembersA M resol self.validTime_ (M.changeResolution resol xb)
          (1 / (self.rank_ : K)) self.config_.state
          { ensemblePerturbs_ := self.ensemblePerturbs_,
            bgmean := 0 + (1 : K) • (M.changeResolution resol xb).fields, reads := [], jm := 0 }
          with ⟨s, _ | g⟩
        · simp
        · obtain ⟨i, _, hg, _⟩ := readMembersA_failed M resol self.validTime_ _ _ _ _ s g hr
          simp [hg]
      · simp [h1, h2]
    · simp [h1]
  · unfold Ensemble.linearize
    by_cases h1 : xb.validTime = self.validTime_
    · by_cases h2 : self.config_.state.length = self.rank_
      · simp only [h1, h2, if_true]
        rcases hr : readMembersA M resol self.validTime_ (M.changeResolution resol xb)
          (1 / (self.rank_ : K)) self.config_.state
          { ensemblePerturbs_ := self.ensemblePerturbs_,
            bgmean := 0 + (1 : K) • (M.changeResolution resol xb).fields, reads := [], jm := 0 }
          with ⟨s, _ | g⟩
        · simp
        · obtain ⟨i, _, hg, _⟩ := readMembersA_failed M resol self.validTime_ _ _ _ _ s g hr
          simp [hg]
      · simp [h1, h2]
    · simp [h1]
  · intro k
    unfold Ensemble.linearize
    by_cases h1 : xb.validTime = self.validTime_
    · by_cases h2 : self.config_.state.length = self.rank_
      · simp only [h1, h2, if_true]
        rcases hr : readMembersA M resol self.validTime_ (M.changeResolution resol xb)
          (1 / (self.rank_ : K)) self.config_.state
          { ensemblePerturbs_ := self.ensemblePerturbs_,
            bgmean := 0 + (1 : K) • (M.changeResolution resol xb).fields, reads := [], jm := 0 }
          with ⟨s, _ | g⟩
        · simp
        · obtain ⟨i, hi, hg, hp⟩ := readMembersA_failed M resol self.validTime_ _ _ _ _ s g hr
          simp only [Option.some.injEq]
          intro hk
          rw [hg] at hk
          simp only [Nat.zero_add, LinearizeFailure.memberTime.injEq] at hk
          subst hk
          exact ⟨h2 ▸ hi, hp⟩
      · simp [h1, h2]
    · simp [h1]

end oops
